import Mathlib

/-! Progress-Aware Day Planner: time accounting and timer state machine.

A shallow embedding of the core of `src/Planner.jsx`:

* the day window (lines 61-69),
* the derived workload aggregates, the time left and the reminder (lines 72-88),
* the CRUD operations on tasks, manual entries and categories (lines 98-126)
  and the form inputs they read (lines 51-54, 384, 416, 422-428),
* the timer interval, the timer transitions and the history (lines 129-193).

React state is made explicit: every handler is a function from the state it
closes over (and the clock reading, the fresh id, the prompt reply) to the next
state. Instants are integers, milliseconds since the epoch; `/` on `Int`
rounds down for a positive divisor, as `Math.floor` does.
-/

namespace Planner

/-! ## Data model -/

/-- A category, `{ id, name, targetHrs }`. -/
structure Category where
  id : String
  name : String
  targetHrs : ℚ
deriving DecidableEq

/-- A task, `{ id, title, minutes, category, completed }`, with whole minutes
as in the data model of the specification. -/
structure Task where
  id : String
  title : String
  minutes : Int
  category : String
  completed : Bool
deriving DecidableEq

/-- A manual entry, `{ id, categoryId, minutes }`. -/
structure ManualEntry where
  id : String
  categoryId : String
  minutes : Int
deriving DecidableEq

/-- A timer history record, `{ id, start, end, durationSec, savedCategoryId }`
(`end` is written `endTs`, the name of the local it is filled from). -/
structure HistoryRecord where
  id : String
  start : Option Int
  endTs : Int
  durationSec : Int
  savedCategoryId : Option String
deriving DecidableEq

/-- The `newTask` form state; `minutes` is `none` when the field holds no
number (`NaN`, `undefined`). -/
structure NewTask where
  title : String
  minutes : Option Int
  category : String
deriving DecidableEq

/-- The `quickDone` form state. -/
structure QuickDone where
  category : String
  hours : Int
  minutes : Int
deriving DecidableEq

/-- The `dayStart` setting, `{ hour, minute }`. -/
structure DayStart where
  hour : Nat
  minute : Nat
deriving DecidableEq

/-- The component state that the core reads and writes. -/
structure State where
  categories : List Category
  tasks : List Task
  manualEntries : List ManualEntry
  timerRunning : Bool
  timerStartAt : Option Int
  timerElapsed : Int
  timerHistory : List HistoryRecord
  newTask : NewTask
  quickDone : QuickDone
deriving DecidableEq

/-- The constant `defaultCats`. -/
def defaultCats : List Category :=
  [ { id := "work", name := "Work", targetHrs := 6 },
    { id := "study", name := "Study", targetHrs := 8 } ]

/-- The id `defaultCats[0].id`. -/
def defaultCatId : String := "work"

/-- The state of a first run: nothing stored, every `readLS` gives its
fallback. -/
def initialState : State :=
  { categories := defaultCats
    tasks := []
    manualEntries := []
    timerRunning := false
    timerStartAt := none
    timerElapsed := 0
    timerHistory := []
    newTask := { title := "", minutes := some 30, category := defaultCatId }
    quickDone := { category := defaultCatId, hours := 0, minutes := 0 } }

/-! ## JavaScript truthiness of the values the guards test -/

/-- Truthiness of a nullable timestamp: `null` and `0` are falsy. -/
def truthyTs : Option Int → Bool
  | none => false
  | some t => decide (t ≠ 0)

/-- Truthiness of a nullable string: `null`, `undefined` and `""` are falsy. -/
def truthyStr : Option String → Bool
  | none => false
  | some x => decide (x ≠ "")

/-- The function `Math.round` on a rational: the nearest integer, halves
rounded up. -/
def mathRound (x : ℚ) : Int := Rat.floor (x + 1 / 2)

/-! ## Double arithmetic of the target (line 72)

A JavaScript number is a double; its value is a rational. The product
`targetHrs * 60` is the exact product rounded to the nearest double, a tie
going to the even significand, and `Math.round` then acts on that double.
The model is exact for results below `2 ^ 1024` in size (no overflow to
`Infinity`), subnormal results included. -/

/-- Rounding to the nearest integer, a tie going to the even one. -/
def roundHalfEven (x : ℚ) : Int :=
  if x - Rat.floor x < 1 / 2 then Rat.floor x
  else if 1 / 2 < x - Rat.floor x then Rat.floor x + 1
  else if Rat.floor x % 2 = 0 then Rat.floor x
  else Rat.floor x + 1

/-- Binary exponent of the unit in the last place of the double nearest to
`x`: 52 below the exponent of `x`, and never below `-1074`. -/
def ulpExp (x : ℚ) : Int := max (Int.log 2 |x| - 52) (-1074)

/-- The double nearest to the rational `x`. -/
def toDouble (x : ℚ) : ℚ := (roundHalfEven (x / 2 ^ ulpExp x) : ℚ) * 2 ^ ulpExp x

/-- The expression `Math.round((c.targetHrs || 0) * 60)` of line 72, on the
value of the stored double. -/
def targetMinutes (targetHrs : ℚ) : Int := mathRound (toDouble (targetHrs * 60))

/-! ## Day window (lines 61-69)

Time zones are taken with a fixed offset from UTC, in minutes east: `tzOff`
for the configured `timeZone`, `localOff` for the zone of the runtime, in
which `new Date(string)` and `setHours` work. This is exact for zones without
daylight saving (UTC, Asia/Tokyo, Asia/Kolkata) and, for the others, away from
the days on which their clocks change. -/

/-- Milliseconds in 24 hours, `24 * 60 * 60 * 1000`. -/
def dayMs : Int := 24 * 60 * 60 * 1000

/-- The clock reading that `n.toLocaleString("en-US", { timeZone })` prints,
as milliseconds on the zone's own clock, to the second. -/
def toLocaleString (tzOff : Int) (n : Int) : Int :=
  (n + tzOff * 60000) / 1000 * 1000

/-- The instant `new Date(text)` of a clock reading: the text is read as a
time of the runtime's zone. -/
def parseDate (localOff : Int) (wall : Int) : Int :=
  wall - localOff * 60000

/-- The instant after `d.setHours(h, m, 0, 0)`: same local calendar day, time of
day `h:m:00.000`. -/
def setHours (localOff : Int) (d : Int) (h m : Nat) : Int :=
  (d + localOff * 60000) / dayMs * dayMs + ((h : Int) * 60 + (m : Int)) * 60000
    - localOff * 60000

/-- The result of the day-window memo. -/
structure DayWindow where
  windowStart : Int
  windowEnd : Int
  msLeft : Int
deriving DecidableEq

/-- The day-window memo, at the instant `n`. -/
def dayWindow (localOff tzOff : Int) (dayStart : DayStart) (n : Int) : DayWindow :=
  let cand := setHours localOff (parseDate localOff (toLocaleString tzOff n))
    dayStart.hour dayStart.minute
  let start := if n < cand then cand - dayMs else cand
  let endTs := start + dayMs
  { windowStart := start, windowEnd := endTs, msLeft := max 0 (endTs - n) }

/-! ## Timer transitions (lines 141-170) -/

/-- The handler `startTimer`, at the instant `now`. -/
def startTimer (s : State) (now : Int) : State :=
  let baseSec := max 0 s.timerElapsed
  let startTs := now - baseSec * 1000
  { s with timerStartAt := some startTs, timerRunning := true }

/-- The handler `pauseTimer`, at the instant `now`. -/
def pauseTimer (s : State) (now : Int) : State :=
  match s.timerStartAt with
  | none => s
  | some startAt =>
    if !s.timerRunning || !truthyTs (some startAt) then s
    else
      let elapsedSec := now / 1000 - startAt / 1000
      { s with timerElapsed := elapsedSec, timerRunning := false, timerStartAt := none }

/-- The record that `stopAndRecord` builds, with `uid()` giving `newId`. -/
def stopRecord (s : State) (now : Int) (newId : String) : HistoryRecord :=
  let duration :=
    match s.timerStartAt with
    | some startAt =>
      if s.timerRunning && truthyTs (some startAt) then now / 1000 - startAt / 1000
      else s.timerElapsed
    | none => s.timerElapsed
  { id := newId
    start := if truthyTs s.timerStartAt then s.timerStartAt else none
    endTs := now
    durationSec := max 0 duration
    savedCategoryId := none }

/-- The handler `stopAndRecord`, at the instant `now`. -/
def stopAndRecord (s : State) (now : Int) (newId : String) : State :=
  if !s.timerRunning && !truthyTs s.timerStartAt && s.timerElapsed == 0 then s
  else
    { s with
      timerHistory := (stopRecord s now newId :: s.timerHistory).take 200
      timerRunning := false
      timerStartAt := none
      timerElapsed := 0 }

/-! ## Derived aggregates (lines 72-81) -/

/-- A plain object used as a dictionary from category id to minutes: its own
properties, in insertion order. -/
abbrev Dict := List (String × Int)

/-- Property read `d[k]`, `none` for `undefined`. -/
def dictGet : Dict → String → Option Int
  | [], _ => none
  | (k0, v0) :: rest, k => if k0 = k then some v0 else dictGet rest k

/-- Property write `d[k] = v`: an existing key keeps its place, a new key
goes last. -/
def dictSet : Dict → String → Int → Dict
  | [], k, v => [(k, v)]
  | (k0, v0) :: rest, k, v =>
    if k0 = k then (k0, v) :: rest else (k0, v0) :: dictSet rest k v

/-- The test `d.hasOwnProperty(k)`. -/
def dictHas (d : Dict) (k : String) : Bool := (dictGet d k).isSome

/-- The read `d[k] || 0`. -/
def dictGetOr0 (d : Dict) (k : String) : Int := (dictGet d k).getD 0

/-- The list `Object.values(d)`. -/
def dictValues (d : Dict) : List Int := d.map Prod.snd

/-- The memo `targetsMin`. -/
def targetsMin (categories : List Category) : Dict :=
  categories.foldl (fun m c => dictSet m c.id (targetMinutes c.targetHrs)) []

/-- The loop `for (const c of categories) sum[c.id] = 0` on a fresh object. -/
def zeroSum (categories : List Category) : Dict :=
  categories.foldl (fun sum c => dictSet sum c.id 0) []

/-- The memo `minutesDoneFromTasks`. -/
def minutesDoneFromTasks (tasks : List Task) (categories : List Category) : Dict :=
  tasks.foldl
    (fun sum t =>
      if t.completed && dictHas sum t.category then
        dictSet sum t.category (dictGetOr0 sum t.category + t.minutes)
      else sum)
    (zeroSum categories)

/-- The memo `minutesDoneFromManual`. -/
def minutesDoneFromManual (manualEntries : List ManualEntry)
    (categories : List Category) : Dict :=
  manualEntries.foldl
    (fun sum e =>
      if dictHas sum e.categoryId then
        dictSet sum e.categoryId (dictGetOr0 sum e.categoryId + e.minutes)
      else sum)
    (zeroSum categories)

/-- The memo `minutesDone`. -/
def minutesDone (categories : List Category) (tasks : List Task)
    (manualEntries : List ManualEntry) : Dict :=
  categories.foldl
    (fun sum c =>
      dictSet sum c.id
        (dictGetOr0 (minutesDoneFromTasks tasks categories) c.id
          + dictGetOr0 (minutesDoneFromManual manualEntries categories) c.id))
    []

/-- The memo `minutesPlannedRemaining`. -/
def minutesPlannedRemaining (tasks : List Task) (categories : List Category) : Dict :=
  tasks.foldl
    (fun sum t =>
      if !t.completed && dictHas sum t.category then
        dictSet sum t.category (dictGetOr0 sum t.category + t.minutes)
      else sum)
    (zeroSum categories)

/-- The memo `neededToday`. -/
def neededToday (categories : List Category) (tasks : List Task)
    (manualEntries : List ManualEntry) : Dict :=
  categories.foldl
    (fun need c =>
      let target := dictGetOr0 (targetsMin categories) c.id
      let done := dictGetOr0 (minutesDone categories tasks manualEntries) c.id
      dictSet need c.id (max 0 (target - done)))
    []

/-- The memo `neededTotalMin`. -/
def neededTotalMin (categories : List Category) (tasks : List Task)
    (manualEntries : List ManualEntry) : Int :=
  (dictValues (neededToday categories tasks manualEntries)).foldl (fun s x => s + x) 0

/-- The memo `plannedRemainingTotalMin`. -/
def plannedRemainingTotalMin (categories : List Category) (tasks : List Task) : Int :=
  (dictValues (minutesPlannedRemaining tasks categories)).foldl (fun s x => s + x) 0

/-- The value `workloadMin`. -/
def workloadMin (categories : List Category) (tasks : List Task)
    (manualEntries : List ManualEntry) : Int :=
  max (neededTotalMin categories tasks manualEntries)
    (plannedRemainingTotalMin categories tasks)

/-! ### The aggregates as the specification words them -/

/-- Specification: `doneMinutes(c)`, the minutes of the completed tasks of the
category plus the minutes of its manual entries. -/
def doneMinutesSpec (tasks : List Task) (manualEntries : List ManualEntry)
    (c : Category) : Int :=
  ((tasks.filter (fun t => t.completed && decide (t.category = c.id))).map
      (fun t => t.minutes)).sum
    + ((manualEntries.filter (fun e => decide (e.categoryId = c.id))).map
      (fun e => e.minutes)).sum

/-- Specification: `neededMinutes(c) = max(0, round(targetHours(c) * 60) -
doneMinutes(c))`, the product and the rounding read in exact arithmetic. -/
def neededMinutesSpec (tasks : List Task) (manualEntries : List ManualEntry)
    (c : Category) : Int :=
  max 0 (mathRound (c.targetHrs * 60) - doneMinutesSpec tasks manualEntries c)

/-- The same formula with the product `targetHours(c) * 60` rounded to a
double before `round`, as JavaScript computes it. -/
def neededMinutesDouble (tasks : List Task) (manualEntries : List ManualEntry)
    (c : Category) : Int :=
  max 0 (targetMinutes c.targetHrs - doneMinutesSpec tasks manualEntries c)

/-- Specification: `plannedRemainingMinutes(c)`, the minutes of the incomplete
tasks of the category. -/
def plannedRemainingSpec (tasks : List Task) (c : Category) : Int :=
  ((tasks.filter (fun t => !t.completed && decide (t.category = c.id))).map
      (fun t => t.minutes)).sum

/-! ## CRUD handlers (lines 98-126) -/

/-- The characters that `String.prototype.trim` strips: the white space and
line terminator code points of ECMAScript. -/
def isWhiteSpace (c : Char) : Bool :=
  let n := c.toNat
  n == 0x09 || n == 0x0A || n == 0x0B || n == 0x0C || n == 0x0D || n == 0x20
    || n == 0xA0 || n == 0x1680 || (0x2000 ≤ n && n ≤ 0x200A) || n == 0x2028
    || n == 0x2029 || n == 0x202F || n == 0x205F || n == 0x3000 || n == 0xFEFF

/-- The method `trim()`. -/
def trim (t : String) : String :=
  String.mk ((t.data.dropWhile isWhiteSpace).reverse.dropWhile isWhiteSpace).reverse

/-- The handler `addTask`, with `uid()` giving `newId`. -/
def addTask (s : State) (newId : String) : State :=
  match s.newTask.minutes with
  | none => s
  | some m =>
    if trim s.newTask.title = "" || s.newTask.category = "" then s
    else
      { s with
        tasks := s.tasks ++
          [{ id := newId, title := trim s.newTask.title, minutes := max 1 m,
             category := s.newTask.category, completed := false }]
        newTask := { s.newTask with title := "", minutes := some 30 } }

/-- The handler `toggleTask`. -/
def toggleTask (s : State) (id : String) : State :=
  let toggle := fun (t : Task) => if t.id = id then { t with completed := !t.completed } else t
  { s with tasks := s.tasks.map toggle }

/-- The handler `deleteTask`. -/
def deleteTask (s : State) (id : String) : State :=
  { s with tasks := s.tasks.filter (fun t => decide (t.id ≠ id)) }

/-- The handler `addManualDone`, with `uid()` giving `newId`; a `categoryId`
of `none` is `undefined`. -/
def addManualDone (s : State) (categoryId : Option String) (minutes : Int)
    (newId : String) : State :=
  match categoryId with
  | none => s
  | some cid =>
    if !truthyStr (some cid) || minutes == 0 then s
    else
      { s with manualEntries := s.manualEntries ++
          [{ id := newId, categoryId := cid, minutes := max 1 minutes }] }

/-- The handler `deleteManualEntry`. -/
def deleteManualEntry (s : State) (id : String) : State :=
  { s with manualEntries := s.manualEntries.filter (fun e => decide (e.id ≠ id)) }

/-- The handler `removeCategory`. -/
def removeCategory (s : State) (id : String) : State :=
  { s with
    categories := s.categories.filter (fun c => decide (c.id ≠ id))
    tasks := s.tasks.filter (fun t => decide (t.category ≠ id))
    manualEntries := s.manualEntries.filter (fun e => decide (e.categoryId ≠ id)) }

/-- The handler `renameCategory`. -/
def renameCategory (s : State) (id : String) (newName : String) : State :=
  let rename := fun (c : Category) => if c.id = id then { c with name := newName } else c
  { s with categories := s.categories.map rename }

/-- The handler `setCategoryTarget`. -/
def setCategoryTarget (s : State) (id : String) (hrs : ℚ) : State :=
  let retarget := fun (c : Category) =>
    if c.id = id then { c with targetHrs := max 0 hrs } else c
  { s with categories := s.categories.map retarget }

/-! ## Form inputs (lines 51-54, 384, 416, 422-428) -/

/-- The expression `categories[0]?.id || defaultCats[0].id`. -/
def firstCatIdOrDefault (categories : List Category) : String :=
  match categories.head? with
  | some c => if c.id ≠ "" then c.id else defaultCatId
  | none => defaultCatId

/-- The effect that runs when `categories` changes (lines 51-54): an input
whose category is no longer found is moved to the first category, or to the
id of the first default category. -/
def categoriesEffect (s : State) : State :=
  let cats := s.categories
  let newTask :=
    if (cats.find? (fun c => c.id == s.newTask.category)).isNone then
      { s.newTask with category := firstCatIdOrDefault cats }
    else s.newTask
  let quickDone :=
    if (cats.find? (fun c => c.id == s.quickDone.category)).isNone then
      { s.quickDone with category := firstCatIdOrDefault cats }
    else s.quickDone
  { s with newTask := newTask, quickDone := quickDone }

/-- The title field of the task form (`onChange`, line 384). -/
def setNewTaskTitle (s : State) (title : String) : State :=
  { s with newTask := { s.newTask with title := title } }

/-- The minutes field of the quick-add form (`onChange`, line 416). -/
def setQuickDoneMinutes (s : State) (v : Int) : State :=
  { s with quickDone := { s.quickDone with minutes := max 0 (min 59 v) } }

/-- The click handler of "Add Done Time" (lines 422-428). -/
def addDoneTime (s : State) (newId : String) : State :=
  let cat : Option String :=
    if s.quickDone.category ≠ "" then some s.quickDone.category
    else s.categories.head?.map (fun c => c.id)
  let mins := s.quickDone.hours * 60 + s.quickDone.minutes
  if !truthyStr cat || mins == 0 then s
  else
    { addManualDone s cat mins newId with
      quickDone :=
        { category := firstCatIdOrDefault s.categories, hours := 0, minutes := 0 } }

/-! ## Saving a history record into a category (lines 173-193) -/

/-- The handler `saveRecordToCategory`, with `uid()` giving `newId`. The
prompt reply is `none` when the prompt is cancelled, left empty or not a
number (each returns before any state is written) and `some k` when the text
reads as the whole number `k`. -/
def saveRecordToCategory (s : State) (recId : String) (reply : Option Int)
    (newId : String) : State :=
  match s.timerHistory.find? (fun r => r.id == recId) with
  | none => s
  | some rec =>
    if truthyStr rec.savedCategoryId then s
    else if s.categories.length == 0 then s
    else
      match reply with
      | none => s
      | some choice =>
        if choice == 0 || choice < 1 || choice > s.categories.length then s
        else
          match s.categories.get? (choice - 1).toNat with
          | none => s
          | some chosen =>
            let mins := max 1 (mathRound ((rec.durationSec : ℚ) / 60))
            let s1 := addManualDone s (some chosen.id) mins newId
            let mark := fun (r : HistoryRecord) =>
              if r.id = recId then { r with savedCategoryId := some chosen.id } else r
            { s1 with timerHistory := s1.timerHistory.map mark }

/-! ## Referential integrity -/

/-- Every task and every manual entry names the id of a category of the
list. -/
def refIntegrity (s : State) : Bool :=
  s.tasks.all (fun t => s.categories.any (fun c => c.id == t.category))
    && s.manualEntries.all (fun e => s.categories.any (fun c => c.id == e.categoryId))

/-- The state after both default categories are removed from the first-run
state, the effect of lines 51-54 running after each change of `categories`. -/
def afterRemovingAll : State :=
  categoriesEffect
    (removeCategory (categoriesEffect (removeCategory initialState "work")) "study")

/-! ## Time left and reminder (lines 83-88) -/

/-- The value `minutesLeft`, from `msLeft`. -/
def minutesLeft (msLeft : Int) : Int := max 0 (msLeft / 60000)

/-- The value `canFinish`. -/
def canFinish (workloadMin minutesLeft : Int) : Bool := decide (workloadMin ≤ minutesLeft)

/-- The memo `latestStart`, as an instant. -/
def latestStart (windowEnd workloadMin : Int) : Int := windowEnd - workloadMin * 60000

/-- The value `hoursLeft`. -/
def hoursLeft (minutesLeft : Int) : ℚ := (minutesLeft : ℚ) / 60

/-- The value `reminderState`, from `hoursLeft`. -/
def reminderState (hoursLeft : ℚ) : String :=
  if hoursLeft > 6 then "green" else if hoursLeft > 2 then "yellow" else "red"

/-! ## Timer interval (lines 129-138) -/

/-- One firing, at the instant `now`, of the interval that the timer effect
installs while `timerRunning && timerStartAt` holds; in every other state no
interval is installed and nothing is written. -/
def timerInterval (s : State) (now : Int) : State :=
  match s.timerStartAt with
  | none => s
  | some startAt =>
    if s.timerRunning && truthyTs (some startAt) then
      { s with timerElapsed := now / 1000 - startAt / 1000 }
    else s

/-! ## Adding a category (lines 113-119) -/

/-- The character class `[a-z0-9]`. -/
def isSlugChar (c : Char) : Bool :=
  (decide ('a' ≤ c) && decide (c ≤ 'z')) || (decide ('0' ≤ c) && decide (c ≤ '9'))

/-- The replacement `replace(/[^a-z0-9]+/g, "-")` on the characters of a text;
the flag tells whether the character before was part of a run already
replaced. -/
def replaceRuns : Bool → List Char → List Char
  | _, [] => []
  | inRun, c :: rest =>
    if isSlugChar c then c :: replaceRuns false rest
    else if inRun then replaceRuns true rest
    else '-' :: replaceRuns true rest

/-- The text `nm` of `addCategory`: `(name || "New").trim() || "New"`, a `name`
of `none` being `undefined` or `null`. -/
def categoryName (name : Option String) : String :=
  let given := if truthyStr name then name.getD "New" else "New"
  if trim given ≠ "" then trim given else "New"

/-- The text `base` of `addCategory`; the library method `toLowerCase` is a
parameter. -/
def slugBase (toLowerCase : String → String) (nm : String) : String :=
  String.mk (replaceRuns false (toLowerCase nm).data)

/-- The loop `while (categories.find((c) => c.id === id)) id = base-i++` of
`addCategory`, run for at most `fuel` tests; `none` when the tests are used up
before a free id is met. -/
def freshIdLoop (categories : List Category) (base : String) :
    Nat → String → Nat → Option String
  | 0, _, _ => none
  | fuel + 1, id, i =>
    if (categories.find? (fun c => c.id == id)).isSome then
      freshIdLoop categories base fuel (base ++ "-" ++ toString i) (i + 1)
    else some id

/-- The handler `addCategory`, at the instant `now`. The loop is given one
test more than there are categories; `none` would mean that it had not
returned by then. -/
def addCategory (toLowerCase : String → String) (s : State) (name : Option String)
    (now : Int) : Option State :=
  let nm := categoryName name
  let base := slugBase toLowerCase nm
  let id0 := if base ≠ "" then base else "cat-" ++ toString now
  match freshIdLoop s.categories base (s.categories.length + 1) id0 1 with
  | none => none
  | some id =>
    some { s with categories := s.categories ++ [{ id := id, name := nm, targetHrs := 1 }] }

/-- The number that a list of decimal digit characters writes. -/
def decodeDigits (l : List Char) : Nat :=
  l.foldl (fun acc c => acc * 10 + (c.toNat - 48)) 0

/-! ## The remaining inputs and the states the handlers reach -/

/-- The minutes field of the task form (`onChange`, line 387). -/
def setNewTaskMinutes (s : State) (v : Int) : State :=
  { s with newTask := { s.newTask with minutes := some (max 0 v) } }

/-- The category select of the task form (`onChange`, line 390). -/
def setNewTaskCategory (s : State) (category : String) : State :=
  { s with newTask := { s.newTask with category := category } }

/-- The category select of the quick-add form (`onChange`, line 409). -/
def setQuickDoneCategory (s : State) (category : String) : State :=
  { s with quickDone := { s.quickDone with category := category } }

/-- The hours field of the quick-add form (`onChange`, line 414). -/
def setQuickDoneHours (s : State) (v : Int) : State :=
  { s with quickDone := { s.quickDone with hours := max 0 v } }

/-- The Delete button of a history record (line 490). -/
def deleteHistoryRecord (s : State) (id : String) : State :=
  { s with timerHistory := s.timerHistory.filter (fun x => decide (x.id ≠ id)) }

/-- The states that the handlers reach from the first-run state. Every event
of the component that writes the state is a rule; the selects offer the ids
of the categories of the list. The rendering shows some buttons in some
states only (Start while not running, Pause and Stop while running); the rules
do not use that, so they cover at least every state the component reaches. -/
inductive Reachable (toLowerCase : String → String) : State → Prop
  | init : Reachable toLowerCase initialState
  | titleTyped {s : State} (title : String) :
      Reachable toLowerCase s → Reachable toLowerCase (setNewTaskTitle s title)
  | minutesTyped {s : State} (v : Int) :
      Reachable toLowerCase s → Reachable toLowerCase (setNewTaskMinutes s v)
  | taskCategoryChosen {s : State} (c : Category) :
      Reachable toLowerCase s → c ∈ s.categories →
      Reachable toLowerCase (setNewTaskCategory s c.id)
  | taskAdded {s : State} (newId : String) :
      Reachable toLowerCase s → Reachable toLowerCase (addTask s newId)
  | taskToggled {s : State} (id : String) :
      Reachable toLowerCase s → Reachable toLowerCase (toggleTask s id)
  | taskDeleted {s : State} (id : String) :
      Reachable toLowerCase s → Reachable toLowerCase (deleteTask s id)
  | doneCategoryChosen {s : State} (c : Category) :
      Reachable toLowerCase s → c ∈ s.categories →
      Reachable toLowerCase (setQuickDoneCategory s c.id)
  | doneHoursTyped {s : State} (v : Int) :
      Reachable toLowerCase s → Reachable toLowerCase (setQuickDoneHours s v)
  | doneMinutesTyped {s : State} (v : Int) :
      Reachable toLowerCase s → Reachable toLowerCase (setQuickDoneMinutes s v)
  | doneTimeAdded {s : State} (newId : String) :
      Reachable toLowerCase s → Reachable toLowerCase (addDoneTime s newId)
  | manualEntryDeleted {s : State} (id : String) :
      Reachable toLowerCase s → Reachable toLowerCase (deleteManualEntry s id)
  | categoryAdded {s t : State} (name : Option String) (now : Int) :
      Reachable toLowerCase s → addCategory toLowerCase s name now = some t →
      Reachable toLowerCase t
  | categoryRemoved {s : State} (id : String) :
      Reachable toLowerCase s → Reachable toLowerCase (removeCategory s id)
  | categoryRenamed {s : State} (id newName : String) :
      Reachable toLowerCase s → Reachable toLowerCase (renameCategory s id newName)
  | targetSet {s : State} (id : String) (hrs : ℚ) :
      Reachable toLowerCase s → Reachable toLowerCase (setCategoryTarget s id hrs)
  | inputsSynced {s : State} :
      Reachable toLowerCase s → Reachable toLowerCase (categoriesEffect s)
  | started {s : State} (now : Int) :
      Reachable toLowerCase s → Reachable toLowerCase (startTimer s now)
  | paused {s : State} (now : Int) :
      Reachable toLowerCase s → Reachable toLowerCase (pauseTimer s now)
  | stopped {s : State} (now : Int) (newId : String) :
      Reachable toLowerCase s → Reachable toLowerCase (stopAndRecord s now newId)
  | ticked {s : State} (now : Int) :
      Reachable toLowerCase s → Reachable toLowerCase (timerInterval s now)
  | recordSaved {s : State} (recId : String) (reply : Option Int) (newId : String) :
      Reachable toLowerCase s →
      Reachable toLowerCase (saveRecordToCategory s recId reply newId)
  | recordDeleted {s : State} (id : String) :
      Reachable toLowerCase s → Reachable toLowerCase (deleteHistoryRecord s id)

/-- What every reachable state satisfies: `timerStartAt` is set only while the
timer runs, no category id is the empty string, and no record is saved under
the empty string. -/
def WellFormed (s : State) : Prop :=
  (s.timerStartAt ≠ none → s.timerRunning = true)
    ∧ (∀ c ∈ s.categories, c.id ≠ "")
    ∧ (∀ r ∈ s.timerHistory, r.savedCategoryId ≠ some "")

/-! ## Theorems: day window -/

/-- When the configured zone and the zone of the runtime have the same fixed
offset (no change of clocks in between), the window holds the instant `n` and
lasts 24 hours. -/
theorem dayWindow_contains_now_same_offset (off : Int) (dayStart : DayStart)
    (hh : dayStart.hour ≤ 23) (hm : dayStart.minute ≤ 59) (n : Int) :
    (dayWindow off off dayStart n).windowStart ≤ n
      ∧ n < (dayWindow off off dayStart n).windowEnd
      ∧ (dayWindow off off dayStart n).windowEnd
          = (dayWindow off off dayStart n).windowStart + dayMs := by
  simp only [dayWindow, setHours, parseDate, toLocaleString, dayMs]
  have h1 : ((dayStart.hour : Int)) ≤ 23 := by exact_mod_cast hh
  have h2 : ((dayStart.minute : Int)) ≤ 59 := by exact_mod_cast hm
  have h3 : (0 : Int) ≤ dayStart.hour := Int.natCast_nonneg _
  have h4 : (0 : Int) ≤ dayStart.minute := Int.natCast_nonneg _
  split <;> refine ⟨?_, ?_, ?_⟩ <;> first | trivial | omega

/-- C1, at the failing input: runtime in UTC, `timeZone` Asia/Tokyo (+540
minutes), day start 23:00, now = 2026-01-01T15:00:00Z. The window computed is
2026-01-01T23:00Z to 2026-01-02T23:00Z, which starts eight hours after now. -/
theorem dayWindow_misses_now_other_zone :
    dayWindow 0 540 { hour := 23, minute := 0 } 1767279600000
        = { windowStart := 1767308400000, windowEnd := 1767394800000,
            msLeft := 115200000 }
      ∧ ¬ ((dayWindow 0 540 { hour := 23, minute := 0 } 1767279600000).windowStart
            ≤ 1767279600000) := by
  decide

/-! ## Theorems: timer -/

/-- C2: for a non-running timer with `timerElapsed = e`, `0 ≤ e`, and instants
`T0 ≤ T1` with `T0 - 1000 * e > 0`, `startTimer` at `T0` then `pauseTimer` at
`T1` gives `timerRunning = false`, `timerStartAt = null` and
`timerElapsed = e + (floor(T1/1000) - floor(T0/1000))`; that value is less than
one second away from `e + (T1 - T0)/1000`, and it is `e` when `T1 = T0`. -/
theorem start_pause_elapsed (s : State) (e T0 T1 : Int)
    (_hrun : s.timerRunning = false) (he : s.timerElapsed = e) (he0 : 0 ≤ e)
    (_hT : T0 ≤ T1) (hpos : T0 - 1000 * e > 0) :
    (pauseTimer (startTimer s T0) T1).timerRunning = false
      ∧ (pauseTimer (startTimer s T0) T1).timerStartAt = none
      ∧ (pauseTimer (startTimer s T0) T1).timerElapsed
          = e + (T1 / 1000 - T0 / 1000)
      ∧ 1000 * (pauseTimer (startTimer s T0) T1).timerElapsed - 1000
          < 1000 * e + (T1 - T0)
      ∧ 1000 * e + (T1 - T0)
          < 1000 * (pauseTimer (startTimer s T0) T1).timerElapsed + 1000
      ∧ (T1 = T0 → (pauseTimer (startTimer s T0) T1).timerElapsed = e) := by
  have hmax : max 0 e = e := max_eq_right he0
  have hne : T0 - e * 1000 ≠ 0 := by omega
  have hp : pauseTimer (startTimer s T0) T1
      = { startTimer s T0 with
          timerElapsed := T1 / 1000 - (T0 - e * 1000) / 1000
          timerRunning := false
          timerStartAt := none } := by
    simp [pauseTimer, startTimer, truthyTs, he, hmax, hne]
  rw [hp]
  refine ⟨rfl, rfl, ?_, ?_, ?_, ?_⟩ <;> simp only <;> omega

/-- Witness of C2: from the paused state with 7 seconds, start at
1767279600400 ms and pause 5.7 s later. -/
theorem start_pause_elapsed_witness :
    (pauseTimer (startTimer { initialState with timerElapsed := 7 } 1767279600400)
        1767279606100).timerElapsed = 7 + 6 := by
  have h := start_pause_elapsed { initialState with timerElapsed := 7 } 7
    1767279600400 1767279606100 rfl rfl (by decide) (by decide) (by decide)
  rw [h.2.2.1]
  decide

/-- C4: for a non-running timer with `timerElapsed = e`, `0 ≤ e`, an instant
`T` with `T - 1000 * e > 0` and a whole number of seconds `0 ≤ k`,
`startTimer` at `T` then `stopAndRecord` at `T + 1000 * k` puts at the head of
the history a record with `durationSec = e + k` (start `T - 1000 * e`, end
`T + 1000 * k`, no saved category). -/
theorem start_stop_duration (s : State) (e T k : Int) (newId : String)
    (_hrun : s.timerRunning = false) (he : s.timerElapsed = e) (he0 : 0 ≤ e)
    (hpos : T - 1000 * e > 0) (hk : 0 ≤ k) :
    (stopAndRecord (startTimer s T) (T + 1000 * k) newId).timerHistory.head?
      = some { id := newId, start := some (T - 1000 * e), endTs := T + 1000 * k,
               durationSec := e + k, savedCategoryId := none } := by
  have hmax : max 0 e = e := max_eq_right he0
  have hne : T - e * 1000 ≠ 0 := by omega
  have hd : (T + 1000 * k) / 1000 - (T - e * 1000) / 1000 = e + k := by omega
  have hmax2 : max 0 (e + k) = e + k := max_eq_right (by omega)
  simp [stopAndRecord, stopRecord, startTimer, truthyTs, he, hmax, hne, hd, hmax2]
  ring

/-- Witness of C4: started from Idle at `T` and stopped at `T + 125 s`, the
record has `durationSec = 125`. -/
theorem start_stop_duration_witness :
    ((stopAndRecord (startTimer initialState 1767279600400)
        (1767279600400 + 1000 * 125) "r1").timerHistory.head?).map
      (fun r => r.durationSec) = some 125 := by
  have h := start_stop_duration initialState 0 1767279600400 125 "r1" rfl rfl
    (by decide) (by decide) (by decide)
  rw [h]
  rfl

/-- The transition `stopAndRecord` on any state that its guard lets through
(running, or `timerStartAt` truthy, or `timerElapsed ≠ 0`): the Idle state and
the history `(r :: h).take 200` with the one new record `r`. -/
theorem stopAndRecord_records (s : State) (now : Int) (newId : String)
    (h : s.timerRunning = true ∨ (∃ t, s.timerStartAt = some t ∧ t ≠ 0)
          ∨ s.timerElapsed ≠ 0) :
    (stopAndRecord s now newId).timerRunning = false
      ∧ (stopAndRecord s now newId).timerStartAt = none
      ∧ (stopAndRecord s now newId).timerElapsed = 0
      ∧ (stopAndRecord s now newId).timerHistory
          = (stopRecord s now newId :: s.timerHistory).take 200
      ∧ (stopRecord s now newId).savedCategoryId = none
      ∧ (stopAndRecord s now newId).timerHistory
          = stopRecord s now newId :: s.timerHistory.take 199
      ∧ (stopAndRecord s now newId).timerHistory.length
          = min 200 (s.timerHistory.length + 1)
      ∧ (stopAndRecord s now newId).timerHistory.length ≤ 200 := by
  have hguard : (!s.timerRunning && !truthyTs s.timerStartAt
      && s.timerElapsed == 0) = false := by
    rcases h with h | ⟨t, ht, ht0⟩ | h
    · simp [h]
    · simp [ht, truthyTs, ht0]
    · simp [h]
  have hs : stopAndRecord s now newId
      = { s with
          timerHistory := (stopRecord s now newId :: s.timerHistory).take 200
          timerRunning := false
          timerStartAt := none
          timerElapsed := 0 } := by
    simp only [stopAndRecord, hguard]
    rfl
  rw [hs]
  refine ⟨rfl, rfl, rfl, rfl, rfl, rfl, ?_, ?_⟩
  · simp only [List.length_take, List.length_cons]
  · simp only [List.length_take, List.length_cons]
    omega

/-! ## Theorems: categories -/

/-- C9: `removeCategory x` keeps exactly the tasks whose category is not `x`
and exactly the manual entries whose `categoryId` is not `x`, unmodified and
in their order, and drops from the category list exactly the categories whose
id is `x`. -/
theorem removeCategory_exact (s : State) (x : String) :
    (removeCategory s x).tasks = s.tasks.filter (fun t => decide (t.category ≠ x))
      ∧ (removeCategory s x).manualEntries
          = s.manualEntries.filter (fun e => decide (e.categoryId ≠ x))
      ∧ (removeCategory s x).categories
          = s.categories.filter (fun c => decide (c.id ≠ x))
      ∧ (∀ t, t ∈ (removeCategory s x).tasks ↔ t ∈ s.tasks ∧ t.category ≠ x)
      ∧ (∀ e, e ∈ (removeCategory s x).manualEntries
            ↔ e ∈ s.manualEntries ∧ e.categoryId ≠ x)
      ∧ (∀ c, c ∈ (removeCategory s x).categories ↔ c ∈ s.categories ∧ c.id ≠ x)
      ∧ (removeCategory s x).tasks.Sublist s.tasks
      ∧ (removeCategory s x).manualEntries.Sublist s.manualEntries
      ∧ (removeCategory s x).categories.Sublist s.categories := by
  refine ⟨rfl, rfl, rfl, ?_, ?_, ?_, ?_, ?_, ?_⟩
  · intro t; simp [removeCategory, List.mem_filter]
  · intro e; simp [removeCategory, List.mem_filter]
  · intro c; simp [removeCategory, List.mem_filter]
  · exact List.filter_sublist _
  · exact List.filter_sublist _
  · exact List.filter_sublist _

/-! ## Theorems: saving a record into a category -/

/-- On a whole number of seconds, `Math.round(d / 60)` is `floor((d + 30) / 60)`. -/
theorem mathRound_div_sixty (d : Int) : mathRound ((d : ℚ) / 60) = (d + 30) / 60 := by
  have h : (d : ℚ) / 60 + 1 / 2 = (((d + 30 : Int)) : ℚ) / ((60 : ℕ) : ℚ) := by
    push_cast
    ring
  show ⌊(d : ℚ) / 60 + 1 / 2⌋ = (d + 30) / 60
  rw [h]
  exact Rat.floor_intCast_div_natCast (d + 30) 60

/-- On a whole number, `Math.round` is the identity. -/
theorem mathRound_intCast (n : Int) : mathRound (n : ℚ) = n := by
  show ⌊(n : ℚ) + 1 / 2⌋ = n
  rw [Int.floor_eq_iff]
  constructor <;> norm_num

/-- The success path of `saveRecordToCategory` as one equation: a record found
under `recId` that the guard reads as unsaved, and a valid choice `k` of a
category with a non-empty id. -/
theorem saveRecord_success_eq (s : State) (recId newId : String) (k : Int)
    (r : HistoryRecord) (c : Category)
    (hfind : s.timerHistory.find? (fun x => x.id == recId) = some r)
    (hunsaved : truthyStr r.savedCategoryId = false)
    (hk : 1 ≤ k) (hc : s.categories.get? (k - 1).toNat = some c)
    (hid : c.id ≠ "") :
    saveRecordToCategory s recId (some k) newId
      = { s with
          manualEntries := s.manualEntries ++
            [{ id := newId, categoryId := c.id,
               minutes := max 1 ((r.durationSec + 30) / 60) }]
          timerHistory := s.timerHistory.map
            (fun x => if x.id = recId then
              { x with savedCategoryId := some c.id } else x) } := by
  have hlt : (k - 1).toNat < s.categories.length := by
    rcases Nat.lt_or_ge (k - 1).toNat s.categories.length with h | h
    · exact h
    · rw [List.get?_eq_none.mpr h] at hc
      cases hc
  have hlen : (s.categories.length == 0) = false := by
    rw [beq_eq_false_iff_ne]
    omega
  have hchoice : (k == 0 || decide (k < 1)
      || decide (k > (s.categories.length : Int))) = false := by
    have h0 : (k == 0) = false := by
      rw [beq_eq_false_iff_ne]
      omega
    have h1 : decide (k < 1) = false := decide_eq_false (by omega)
    have h2 : decide (k > (s.categories.length : Int)) = false :=
      decide_eq_false (by omega)
    rw [h0, h1, h2]
    rfl
  have hm0 : (max 1 ((r.durationSec + 30) / 60) == 0) = false := by
    have : (1 : Int) ≤ max 1 ((r.durationSec + 30) / 60) := le_max_left _ _
    rw [beq_eq_false_iff_ne]
    omega
  have hmm : max 1 (max 1 ((r.durationSec + 30) / 60))
      = max 1 ((r.durationSec + 30) / 60) := max_eq_right (le_max_left _ _)
  have htr : truthyStr (some c.id) = true := by simp [truthyStr, hid]
  unfold saveRecordToCategory
  simp only [hfind, hunsaved, hlen, hchoice, hc, addManualDone, mathRound_div_sixty,
    htr, hm0, hmm]
  rfl

/-- The success path of `saveRecordToCategory` on any state, for a chosen
category whose id the guard of `addManualDone` reads as present: one manual
entry appended, the records under `recId` marked, the rest unchanged. -/
theorem saveRecord_appends_entry (s : State) (recId newId : String) (k : Int)
    (r : HistoryRecord) (c : Category)
    (hfind : s.timerHistory.find? (fun x => x.id == recId) = some r)
    (hunsaved : r.savedCategoryId = none)
    (hk : 1 ≤ k) (hc : s.categories.get? (k - 1).toNat = some c)
    (hid : c.id ≠ "") :
    (saveRecordToCategory s recId (some k) newId).manualEntries
        = s.manualEntries ++
          [{ id := newId, categoryId := c.id,
             minutes := max 1 ((r.durationSec + 30) / 60) }]
      ∧ (saveRecordToCategory s recId (some k) newId).timerHistory
        = s.timerHistory.map
          (fun x => if x.id = recId then { x with savedCategoryId := some c.id } else x)
      ∧ { r with savedCategoryId := some c.id }
          ∈ (saveRecordToCategory s recId (some k) newId).timerHistory
      ∧ (∀ x ∈ s.timerHistory, x.id ≠ recId →
          x ∈ (saveRecordToCategory s recId (some k) newId).timerHistory)
      ∧ (saveRecordToCategory s recId (some k) newId).tasks = s.tasks
      ∧ (saveRecordToCategory s recId (some k) newId).categories = s.categories
      ∧ (saveRecordToCategory s recId (some k) newId).timerRunning = s.timerRunning
      ∧ (saveRecordToCategory s recId (some k) newId).timerStartAt = s.timerStartAt
      ∧ (saveRecordToCategory s recId (some k) newId).timerElapsed = s.timerElapsed := by
  have hs := saveRecord_success_eq s recId newId k r c hfind
    (by simp [hunsaved, truthyStr]) hk hc hid
  have hr : r ∈ s.timerHistory ∧ r.id = recId := by
    constructor
    · exact List.mem_of_find?_eq_some hfind
    · have := List.find?_some hfind
      simpa using this
  rw [hs]
  refine ⟨rfl, rfl, ?_, ?_, rfl, rfl, rfl, rfl, rfl⟩
  · simp only [List.mem_map]
    exact ⟨r, hr.1, by simp [hr.2]⟩
  · intro x hx hne
    simp only [List.mem_map]
    exact ⟨x, hx, by simp [hne]⟩

/-- The three early returns of `saveRecordToCategory` on any state: record not
found, `savedCategoryId` truthy, no categories. -/
theorem saveRecord_failure_no_mutation (s : State) (recId newId : String)
    (reply : Option Int)
    (h : s.timerHistory.find? (fun x => x.id == recId) = none
          ∨ (∃ r cid, s.timerHistory.find? (fun x => x.id == recId) = some r
                ∧ r.savedCategoryId = some cid ∧ cid ≠ "")
          ∨ s.categories = []) :
    saveRecordToCategory s recId reply newId = s := by
  unfold saveRecordToCategory
  rcases h with h | ⟨r, cid, hr, hsaved, hcid⟩ | h
  · rw [h]
  · rw [hr]
    simp [hsaved, truthyStr, hcid]
  · cases hf : s.timerHistory.find? (fun x => x.id == recId) with
    | none => rfl
    | some r => simp [h]

/-! ## Theorems: derived aggregates -/

/-- Writing a key that the dictionary lacks appends it. -/
theorem dictSet_of_not_mem (d : Dict) (k : String) (v : Int)
    (h : k ∉ d.map Prod.fst) : dictSet d k v = d ++ [(k, v)] := by
  induction d with
  | nil => rfl
  | cons p rest ih =>
    obtain ⟨k0, v0⟩ := p
    simp only [List.map_cons, List.mem_cons, not_or] at h
    have hne : ¬ k0 = k := fun e => h.1 e.symm
    simp only [dictSet, hne, if_false, List.cons_append, ih h.2]

/-- Writing pairwise distinct fresh keys in a loop appends them in order. -/
theorem foldl_dictSet_fresh {α : Type} (key : α → String) (f : α → Int) (l : List α) :
    ∀ (acc : Dict), (l.map key).Nodup → (∀ a ∈ l, key a ∉ acc.map Prod.fst) →
      l.foldl (fun m c => dictSet m (key c) (f c)) acc
        = acc ++ l.map (fun c => (key c, f c)) := by
  induction l with
  | nil => intro acc _ _; simp
  | cons a rest ih =>
    intro acc hnd hdisj
    simp only [List.map_cons, List.nodup_cons] at hnd
    have ha : key a ∉ acc.map Prod.fst := hdisj a (List.mem_cons_self _ _)
    simp only [List.foldl_cons, dictSet_of_not_mem acc (key a) (f a) ha]
    rw [ih (acc ++ [(key a, f a)]) hnd.2]
    · simp
    · intro b hb
      simp only [List.map_append, List.map_cons, List.map_nil, List.mem_append,
        List.mem_singleton, not_or]
      refine ⟨hdisj b (List.mem_cons_of_mem _ hb), ?_⟩
      intro e
      exact hnd.1 (e ▸ List.mem_map_of_mem key hb)

/-- A loop of writes with pairwise distinct keys on a fresh object. -/
theorem foldl_dictSet_eq_map {α : Type} (key : α → String) (f : α → Int) (l : List α)
    (hnd : (l.map key).Nodup) :
    l.foldl (fun m c => dictSet m (key c) (f c)) [] = l.map (fun c => (key c, f c)) := by
  simpa using foldl_dictSet_fresh key f l [] hnd (by simp)

/-- Reading the key of a member, keys pairwise distinct. -/
theorem dictGet_map_of_mem {α : Type} (key : α → String) (f : α → Int) (l : List α)
    (hnd : (l.map key).Nodup) (a : α) (ha : a ∈ l) :
    dictGet (l.map (fun c => (key c, f c))) (key a) = some (f a) := by
  induction l with
  | nil => cases ha
  | cons b rest ih =>
    simp only [List.map_cons, List.nodup_cons] at hnd
    simp only [List.map_cons, dictGet]
    rcases List.mem_cons.mp ha with e | hmem
    · subst e; simp
    · have hne : ¬ key b = key a := fun e => hnd.1 (e ▸ List.mem_map_of_mem key hmem)
      simp only [hne, if_false]
      exact ih hnd.2 hmem

/-- Reading a key that the dictionary lacks gives `undefined`. -/
theorem dictGet_eq_none_of_not_mem (d : Dict) (k : String) (h : k ∉ d.map Prod.fst) :
    dictGet d k = none := by
  induction d with
  | nil => rfl
  | cons p rest ih =>
    obtain ⟨k0, v0⟩ := p
    simp only [List.map_cons, List.mem_cons, not_or] at h
    have hne : ¬ k0 = k := fun e => h.1 e.symm
    simp only [dictGet, hne, if_false, ih h.2]

/-- The test `hasOwnProperty` is membership among the keys. -/
theorem dictGet_isSome_iff (d : Dict) (k : String) :
    dictHas d k = true ↔ k ∈ d.map Prod.fst := by
  induction d with
  | nil => simp [dictHas, dictGet]
  | cons p rest ih =>
    obtain ⟨k0, v0⟩ := p
    by_cases e : k0 = k
    · simp [dictHas, dictGet, e]
    · have e2 : ¬ k = k0 := fun h => e h.symm
      simp only [dictHas, dictGet, e, if_false, List.map_cons, List.mem_cons, e2, false_or]
      exact ih

/-- One accumulation step, as a map over the entries. -/
theorem dictSet_add_eq_map (d : Dict) (k : String) (x : Int)
    (hnd : (d.map Prod.fst).Nodup) (hk : dictHas d k = true) :
    dictSet d k (dictGetOr0 d k + x)
      = d.map (fun p => (p.1, p.2 + if p.1 = k then x else 0)) := by
  induction d with
  | nil => simp [dictHas, dictGet] at hk
  | cons p rest ih =>
    obtain ⟨k0, v0⟩ := p
    simp only [List.map_cons, List.nodup_cons] at hnd
    by_cases e : k0 = k
    · subst e
      have hrest : rest.map (fun p => (p.1, p.2 + if p.1 = k0 then x else 0)) = rest := by
        have : ∀ p ∈ rest, (fun p : String × Int => (p.1, p.2 + if p.1 = k0 then x else 0)) p = p := by
          intro p hp
          have hne : ¬ p.1 = k0 := fun h => hnd.1 (h ▸ List.mem_map_of_mem Prod.fst hp)
          simp [hne]
        rw [List.map_congr_left this]; simp
      simp [dictSet, dictGetOr0, dictGet, hrest]
    · have hk2 : dictHas rest k = true := by
        simpa [dictHas, dictGet, e] using hk
      have := ih hnd.2 hk2
      simp only [dictGetOr0, dictGet, e, if_false] at this ⊢
      simp only [dictSet, e, if_false, List.map_cons, add_zero]
      rw [this]

/-- Adding to a key that the dictionary lacks changes nothing. -/
theorem map_add_eq_self_of_not_has (d : Dict) (k : String) (x : Int)
    (hk : dictHas d k = false) :
    d.map (fun p => (p.1, p.2 + if p.1 = k then x else 0)) = d := by
  have hmem : k ∉ d.map Prod.fst := by
    intro h
    rw [(dictGet_isSome_iff d k).mpr h] at hk
    cases hk
  have : ∀ p ∈ d, (fun p : String × Int => (p.1, p.2 + if p.1 = k then x else 0)) p = p := by
    intro p hp
    have hne : ¬ p.1 = k := fun h => hmem (h ▸ List.mem_map_of_mem Prod.fst hp)
    simp [hne]
  rw [List.map_congr_left this]; simp

/-- The accumulation loop `if (cond && sum.hasOwnProperty(k)) sum[k] += v` adds
to every key the values of the items that pass the test and carry that key. -/
theorem foldl_accumulate {α : Type} (key : α → String) (val : α → Int) (cond : α → Bool)
    (l : List α) :
    ∀ (d : Dict), (d.map Prod.fst).Nodup →
      l.foldl
          (fun sum t =>
            if cond t && dictHas sum (key t) then
              dictSet sum (key t) (dictGetOr0 sum (key t) + val t)
            else sum)
          d
        = d.map (fun p =>
            (p.1, p.2 + ((l.filter (fun t => cond t && decide (key t = p.1))).map val).sum)) := by
  induction l with
  | nil =>
    intro d _
    simp
  | cons t rest ih =>
    intro d hnd
    rw [List.foldl_cons]
    by_cases hc : cond t = true
    · have hstep : (if cond t && dictHas d (key t) then
            dictSet d (key t) (dictGetOr0 d (key t) + val t) else d)
          = d.map (fun p => (p.1, p.2 + if p.1 = key t then val t else 0)) := by
        by_cases hh : dictHas d (key t) = true
        · simp only [hc, hh, Bool.and_self, if_true]
          exact dictSet_add_eq_map d (key t) (val t) hnd hh
        · have hh2 : dictHas d (key t) = false := by simpa using hh
          simp only [hc, hh2, Bool.and_false, Bool.false_eq_true, if_false]
          exact (map_add_eq_self_of_not_has d (key t) (val t) hh2).symm
      rw [hstep, ih _ (by simpa [List.map_map] using hnd), List.map_map]
      apply List.map_congr_left
      intro p _
      by_cases e : key t = p.1
      · simp [List.filter_cons, hc, e, add_assoc]
      · have e2 : ¬ p.1 = key t := fun h => e h.symm
        simp [List.filter_cons, hc, e, e2]
    · have hc2 : cond t = false := by simpa using hc
      simp only [hc2, Bool.false_and, Bool.false_eq_true, if_false]
      rw [ih d hnd]
      apply List.map_congr_left
      intro p _
      simp [List.filter_cons, hc2]

/-- The zeroed object has one entry per category. -/
theorem zeroSum_eq_map (categories : List Category)
    (hnd : (categories.map (fun c => c.id)).Nodup) :
    zeroSum categories = categories.map (fun c => (c.id, (0 : Int))) :=
  foldl_dictSet_eq_map (fun c : Category => c.id) (fun _ => 0) categories hnd

/-- The memo `minutesDoneFromTasks`, entry by entry. -/
theorem minutesDoneFromTasks_eq_map (tasks : List Task) (categories : List Category)
    (hnd : (categories.map (fun c => c.id)).Nodup) :
    minutesDoneFromTasks tasks categories
      = categories.map (fun c =>
          (c.id, ((tasks.filter (fun t => t.completed && decide (t.category = c.id))).map
            (fun t => t.minutes)).sum)) := by
  unfold minutesDoneFromTasks
  rw [zeroSum_eq_map categories hnd,
    foldl_accumulate (fun t : Task => t.category) (fun t => t.minutes) (fun t => t.completed)
      tasks _ (by simpa [List.map_map, Function.comp_def] using hnd)]
  simp [List.map_map, Function.comp_def]

/-- The memo `minutesPlannedRemaining`, entry by entry. -/
theorem minutesPlannedRemaining_eq_map (tasks : List Task) (categories : List Category)
    (hnd : (categories.map (fun c => c.id)).Nodup) :
    minutesPlannedRemaining tasks categories
      = categories.map (fun c => (c.id, plannedRemainingSpec tasks c)) := by
  unfold minutesPlannedRemaining plannedRemainingSpec
  rw [zeroSum_eq_map categories hnd,
    foldl_accumulate (fun t : Task => t.category) (fun t => t.minutes)
      (fun t => !t.completed) tasks _
      (by simpa [List.map_map, Function.comp_def] using hnd)]
  simp [List.map_map, Function.comp_def]

/-- The memo `minutesDoneFromManual`, entry by entry. -/
theorem minutesDoneFromManual_eq_map (manualEntries : List ManualEntry)
    (categories : List Category) (hnd : (categories.map (fun c => c.id)).Nodup) :
    minutesDoneFromManual manualEntries categories
      = categories.map (fun c =>
          (c.id, ((manualEntries.filter (fun e => decide (e.categoryId = c.id))).map
            (fun e => e.minutes)).sum)) := by
  unfold minutesDoneFromManual
  have h := foldl_accumulate (fun e : ManualEntry => e.categoryId) (fun e => e.minutes)
      (fun _ => true) manualEntries (zeroSum categories)
      (by rw [zeroSum_eq_map categories hnd]
          simpa [List.map_map, Function.comp_def] using hnd)
  simp only [Bool.true_and] at h
  rw [h, zeroSum_eq_map categories hnd]
  simp [List.map_map, Function.comp_def]

/-- The read `d[k] || 0` at the key of a member, keys pairwise distinct. -/
theorem dictGetOr0_map_of_mem {α : Type} (key : α → String) (f : α → Int) (l : List α)
    (hnd : (l.map key).Nodup) (a : α) (ha : a ∈ l) :
    dictGetOr0 (l.map (fun c => (key c, f c))) (key a) = f a := by
  simp only [dictGetOr0, dictGet_map_of_mem key f l hnd a ha, Option.getD_some]

/-- The memo `minutesDone`, entry by entry. -/
theorem minutesDone_eq_map (categories : List Category) (tasks : List Task)
    (manualEntries : List ManualEntry) (hnd : (categories.map (fun c => c.id)).Nodup) :
    minutesDone categories tasks manualEntries
      = categories.map (fun c => (c.id, doneMinutesSpec tasks manualEntries c)) := by
  refine (foldl_dictSet_eq_map (fun c : Category => c.id)
    (fun c => dictGetOr0 (minutesDoneFromTasks tasks categories) c.id
      + dictGetOr0 (minutesDoneFromManual manualEntries categories) c.id)
    categories hnd).trans ?_
  apply List.map_congr_left
  intro c hc
  rw [minutesDoneFromTasks_eq_map tasks categories hnd,
    minutesDoneFromManual_eq_map manualEntries categories hnd,
    dictGetOr0_map_of_mem (fun c : Category => c.id) _ categories hnd c hc,
    dictGetOr0_map_of_mem (fun c : Category => c.id) _ categories hnd c hc]
  rfl

/-- The binary logarithm of a rational between two consecutive powers of 2. -/
theorem int_log_two_eq (x : ℚ) (e : Int) (hx : 0 < x) (h1 : (2 : ℚ) ^ e ≤ x)
    (h2 : x < (2 : ℚ) ^ (e + 1)) : Int.log 2 x = e := by
  have ha : e ≤ Int.log 2 x := by
    have := (Int.zpow_le_iff_le_log (b := 2) (by decide) hx (x := e)).mp
    exact this (by exact_mod_cast h1)
  have hb : Int.log 2 x < e + 1 := by
    have := (Int.lt_zpow_iff_log_lt (b := 2) (by decide) hx (x := e + 1)).mp
    exact this (by exact_mod_cast h2)
  omega

/-- An integer rounds to itself. -/
theorem roundHalfEven_intCast (m : Int) : roundHalfEven (m : ℚ) = m := by
  have hf : Rat.floor (m : ℚ) = m := by
    show ⌊(m : ℚ)⌋ = m
    exact Int.floor_intCast m
  unfold roundHalfEven
  rw [hf]
  simp

/-- A whole number below `2 ^ 53` is a double. -/
theorem toDouble_natCast (n : Nat) (h : n < 2 ^ 53) : toDouble (n : ℚ) = n := by
  rcases Nat.eq_zero_or_pos n with h0 | hpos
  · subst h0
    unfold toDouble
    simp [roundHalfEven_intCast]
    left
    have : roundHalfEven (0 : ℚ) = 0 := by
      have := roundHalfEven_intCast 0
      simpa using this
    exact this
  · have hx : (0 : ℚ) < (n : ℚ) := by exact_mod_cast hpos
    have hlog : Int.log 2 |(n : ℚ)| = Nat.log 2 n := by
      rw [abs_of_pos hx]
      exact Int.log_natCast 2 n
    have hle : Nat.log 2 n ≤ 52 := by
      have : Nat.log 2 n < 53 := Nat.log_lt_of_lt_pow (by omega) h
      omega
    have hulp : ulpExp (n : ℚ) = -((52 - Nat.log 2 n : Nat) : Int) := by
      unfold ulpExp
      rw [hlog]
      omega
    unfold toDouble
    rw [hulp, zpow_neg, zpow_natCast, div_inv_eq_mul]
    have hm : (n : ℚ) * 2 ^ (52 - Nat.log 2 n)
        = ((n * 2 ^ (52 - Nat.log 2 n) : Nat) : Int) := by
      push_cast
      ring
    rw [hm, roundHalfEven_intCast]
    push_cast
    field_simp

/-- For a target of `k` half hours the product with 60 is exact: `30 * k`
minutes. -/
theorem targetMinutes_half_hours (k : Nat) (hk : k < 2 ^ 46) :
    targetMinutes ((k : ℚ) / 2) = 30 * (k : Int) := by
  have hprod : (k : ℚ) / 2 * 60 = ((30 * k : Nat) : ℚ) := by
    push_cast
    ring
  have hlt : 30 * k < 2 ^ 53 := by omega
  unfold targetMinutes
  rw [hprod, toDouble_natCast (30 * k) hlt]
  have := mathRound_intCast ((30 * k : Nat) : Int)
  push_cast at this ⊢
  exact this

/-- The double nearest to 0.175, times 60: the exact product lies just below
10.5 and the nearest double is 10.5 itself. -/
theorem toDouble_product_of_0175 :
    toDouble ((3152519739159347 / 18014398509481984 : ℚ) * 60) = 21 / 2 := by
  have hx : (3152519739159347 / 18014398509481984 : ℚ) * 60
      = 47287796087390205 / 4503599627370496 := by norm_num
  rw [hx]
  have hlog : Int.log 2 |(47287796087390205 / 4503599627370496 : ℚ)| = 3 := by
    rw [abs_of_pos (by norm_num)]
    apply int_log_two_eq
    · norm_num
    · norm_num
    · norm_num
  have hulp : ulpExp (47287796087390205 / 4503599627370496 : ℚ) = -49 := by
    unfold ulpExp
    rw [hlog]
    decide
  unfold toDouble
  rw [hulp]
  have hq : (47287796087390205 / 4503599627370496 : ℚ) / 2 ^ (-49 : Int)
      = 47287796087390205 / 8 := by norm_num
  rw [hq]
  have hr : roundHalfEven (47287796087390205 / 8 : ℚ) = 5910974510923776 := by
    have hfl : Rat.floor (47287796087390205 / 8 : ℚ) = 5910974510923775 := by
      show ⌊(47287796087390205 / 8 : ℚ)⌋ = 5910974510923775
      rw [Int.floor_eq_iff]
      constructor <;> norm_num
    unfold roundHalfEven
    rw [hfl]
    norm_num
  rw [hr]
  norm_num

/-- The memo `targetsMin`, entry by entry. -/
theorem targetsMin_eq_map (categories : List Category)
    (hnd : (categories.map (fun c => c.id)).Nodup) :
    targetsMin categories
      = categories.map (fun c => (c.id, targetMinutes c.targetHrs)) :=
  foldl_dictSet_eq_map (fun c : Category => c.id)
    (fun c => targetMinutes c.targetHrs) categories hnd

/-- The memo `neededToday`, entry by entry. -/
theorem neededToday_eq_map (categories : List Category) (tasks : List Task)
    (manualEntries : List ManualEntry) (hnd : (categories.map (fun c => c.id)).Nodup) :
    neededToday categories tasks manualEntries
      = categories.map (fun c => (c.id, neededMinutesDouble tasks manualEntries c)) := by
  refine (foldl_dictSet_eq_map (fun c : Category => c.id)
    (fun c => max 0 (dictGetOr0 (targetsMin categories) c.id
      - dictGetOr0 (minutesDone categories tasks manualEntries) c.id))
    categories hnd).trans ?_
  apply List.map_congr_left
  intro c hc
  rw [targetsMin_eq_map categories hnd, minutesDone_eq_map categories tasks manualEntries hnd,
    dictGetOr0_map_of_mem (fun c : Category => c.id) _ categories hnd c hc,
    dictGetOr0_map_of_mem (fun c : Category => c.id) _ categories hnd c hc]
  rfl

/-- The reduction `reduce((s, x) => s + x, 0)` is the sum. -/
theorem foldl_add_eq_sum (l : List Int) : l.foldl (fun s x => s + x) 0 = l.sum := by
  rw [List.sum_eq_foldl]

/-- C7, counterexample: one category whose target is the double nearest to
0.175 (what typing 0.175 stores), no task, no manual entry. The exact product
is just below 10.5 and the formula of the claim gives `round = 10`; the code
rounds the product to the double 10.5 first and `neededToday` is 11. -/
theorem neededToday_exact_formula_fails :
    dictGet
        (neededToday
          [{ id := "work", name := "Work",
             targetHrs := 3152519739159347 / 18014398509481984 }] [] [])
        "work" = some 11
      ∧ neededMinutesSpec [] []
          { id := "work", name := "Work",
            targetHrs := 3152519739159347 / 18014398509481984 } = 10 := by
  constructor
  · rw [neededToday_eq_map _ _ _ (by simp)]
    have h11 : mathRound (21 / 2 : ℚ) = 11 := by
      norm_num [mathRound, Rat.floor_def']
    simp [dictGet, neededMinutesDouble, doneMinutesSpec, targetMinutes,
      toDouble_product_of_0175, h11]
  · have h10 : mathRound ((3152519739159347 / 18014398509481984 : ℚ) * 60) = 10 := by
      show ⌊(3152519739159347 / 18014398509481984 : ℚ) * 60 + 1 / 2⌋ = 10
      rw [Int.floor_eq_iff]
      constructor <;> norm_num
    simp [neededMinutesSpec, doneMinutesSpec, h10]

/-- C7, amended: for categories with pairwise distinct ids, and any tasks and
manual entries (whole minutes), the entry of `neededToday` for each category
`c` is `max(0, round(fl(targetHrs(c) * 60)) - doneMinutes(c))`, where `fl` is
the rounding of the product to the nearest double and `doneMinutes(c)` is the
sum of the minutes of the completed tasks of `c` plus the sum of the minutes
of the manual entries of `c`; for a target of `k` half hours, `k < 2 ^ 46`,
the product is exact and the entry is `max(0, 30 * k - doneMinutes(c))`. -/
theorem neededToday_eq_double_formula (categories : List Category) (tasks : List Task)
    (manualEntries : List ManualEntry)
    (hnd : (categories.map (fun c => c.id)).Nodup)
    (c : Category) (hc : c ∈ categories) :
    dictGet (neededToday categories tasks manualEntries) c.id
        = some (max 0 (mathRound (toDouble (c.targetHrs * 60))
            - doneMinutesSpec tasks manualEntries c))
      ∧ (∀ k : Nat, k < 2 ^ 46 → c.targetHrs = (k : ℚ) / 2 →
          dictGet (neededToday categories tasks manualEntries) c.id
            = some (max 0 (30 * (k : Int) - doneMinutesSpec tasks manualEntries c))) := by
  have h : dictGet (neededToday categories tasks manualEntries) c.id
      = some (max 0 (targetMinutes c.targetHrs
          - doneMinutesSpec tasks manualEntries c)) := by
    rw [neededToday_eq_map categories tasks manualEntries hnd,
      dictGet_map_of_mem (fun c : Category => c.id) _ categories hnd c hc]
    rfl
  refine ⟨h, ?_⟩
  intro k hk htarget
  rw [h, htarget, targetMinutes_half_hours k hk]

/-- Witness of C7: one category with target 2 h (4 half hours) and one
completed 90-minute task give `neededToday = 30`. -/
theorem neededToday_eq_double_formula_witness :
    dictGet
        (neededToday [{ id := "work", name := "Work", targetHrs := 2 }]
          [{ id := "t1", title := "Report", minutes := 90, category := "work",
             completed := true }]
          [])
        "work" = some 30 := by
  have h := (neededToday_eq_double_formula
    [{ id := "work", name := "Work", targetHrs := 2 }]
    [{ id := "t1", title := "Report", minutes := 90, category := "work",
       completed := true }]
    [] (by simp) { id := "work", name := "Work", targetHrs := 2 } (by simp)).2 4
    (by norm_num) (by norm_num)
  rw [h]
  simp [doneMinutesSpec]

/-- C8: for categories with pairwise distinct ids, `neededTotalMin` is the sum
over the categories of their entries of `neededToday` (their needed minutes,
as C7 gives them), `plannedRemainingTotalMin` is the sum over the categories
of the minutes of their incomplete tasks, `workloadMin` is the larger of the
two totals, and so it is at least each of them. -/
theorem workloadMin_is_max_of_totals (categories : List Category) (tasks : List Task)
    (manualEntries : List ManualEntry)
    (hnd : (categories.map (fun c => c.id)).Nodup) :
    neededTotalMin categories tasks manualEntries
        = (categories.map
            (fun c => dictGetOr0 (neededToday categories tasks manualEntries) c.id)).sum
      ∧ neededTotalMin categories tasks manualEntries
        = (categories.map (neededMinutesDouble tasks manualEntries)).sum
      ∧ plannedRemainingTotalMin categories tasks
        = (categories.map (plannedRemainingSpec tasks)).sum
      ∧ workloadMin categories tasks manualEntries
        = max (categories.map (neededMinutesDouble tasks manualEntries)).sum
            (categories.map (plannedRemainingSpec tasks)).sum
      ∧ workloadMin categories tasks manualEntries
        = max (neededTotalMin categories tasks manualEntries)
            (plannedRemainingTotalMin categories tasks)
      ∧ neededTotalMin categories tasks manualEntries
          ≤ workloadMin categories tasks manualEntries
      ∧ plannedRemainingTotalMin categories tasks
          ≤ workloadMin categories tasks manualEntries := by
  have h1 : neededTotalMin categories tasks manualEntries
      = (categories.map (neededMinutesDouble tasks manualEntries)).sum := by
    unfold neededTotalMin dictValues
    rw [foldl_add_eq_sum, neededToday_eq_map categories tasks manualEntries hnd,
      List.map_map]
    rfl
  have h0 : (categories.map
      (fun c => dictGetOr0 (neededToday categories tasks manualEntries) c.id))
      = categories.map (neededMinutesDouble tasks manualEntries) := by
    apply List.map_congr_left
    intro c hc
    rw [neededToday_eq_map categories tasks manualEntries hnd,
      dictGetOr0_map_of_mem (fun c : Category => c.id) _ categories hnd c hc]
  have h2 : plannedRemainingTotalMin categories tasks
      = (categories.map (plannedRemainingSpec tasks)).sum := by
    unfold plannedRemainingTotalMin dictValues
    rw [foldl_add_eq_sum, minutesPlannedRemaining_eq_map tasks categories hnd,
      List.map_map]
    rfl
  have h3 : workloadMin categories tasks manualEntries
      = max (neededTotalMin categories tasks manualEntries)
          (plannedRemainingTotalMin categories tasks) := rfl
  refine ⟨?_, h1, h2, ?_, h3, ?_, ?_⟩
  · rw [h0]
    exact h1
  · rw [h3, h1, h2]
  · rw [h3]
    exact le_max_left _ _
  · rw [h3]
    exact le_max_right _ _

/-- Witness of C8: one category with target 2 h, one completed 90-minute task
and no incomplete task give `workloadMin = 30`. -/
theorem workloadMin_is_max_of_totals_witness :
    workloadMin [{ id := "work", name := "Work", targetHrs := 2 }]
        [{ id := "t1", title := "Report", minutes := 90, category := "work",
           completed := true }]
        [] = 30 := by
  have h := workloadMin_is_max_of_totals
    [{ id := "work", name := "Work", targetHrs := 2 }]
    [{ id := "t1", title := "Report", minutes := 90, category := "work",
       completed := true }]
    [] (by simp)
  have h120 : targetMinutes (2 : ℚ) = 120 := by
    have := targetMinutes_half_hours 4 (by norm_num)
    norm_num at this
    exact this
  rw [h.2.2.2.1]
  simp [neededMinutesDouble, doneMinutesSpec, plannedRemainingSpec, h120]

/-! ## Theorems: referential integrity -/

/-- C10, at the failing input: from the first-run state (two categories, no
task, integrity holding) remove "work", then "study". With no category left
the effect of lines 51-54 sets both form inputs to `defaultCats[0].id`, an id
that no longer exists; "Add Task" with the title "Read" then stores a task,
and "Add Done Time" with 15 minutes a manual entry, whose category is not in
the (empty) category list. -/
theorem refIntegrity_broken_after_removing_all :
    refIntegrity initialState = true
      ∧ afterRemovingAll.categories = []
      ∧ afterRemovingAll.newTask.category = "work"
      ∧ afterRemovingAll.quickDone.category = "work"
      ∧ (addTask (setNewTaskTitle afterRemovingAll "Read") "t1").tasks
          = [{ id := "t1", title := "Read", minutes := 30, category := "work",
               completed := false }]
      ∧ (addTask (setNewTaskTitle afterRemovingAll "Read") "t1").categories = []
      ∧ refIntegrity (addTask (setNewTaskTitle afterRemovingAll "Read") "t1") = false
      ∧ (addDoneTime (setQuickDoneMinutes afterRemovingAll 15) "m1").manualEntries
          = [{ id := "m1", categoryId := "work", minutes := 15 }]
      ∧ refIntegrity (addDoneTime (setQuickDoneMinutes afterRemovingAll 15) "m1")
          = false := by
  decide

/-! ## Theorems: day window in UTC, time left, reminder -/

/-- With the runtime and the configured zone both in UTC, an instant `n`
whose time of day is before the day start gets the window from the day start
of the previous UTC day to the day start of its own day, and `minutesLeft` is
the whole number of minutes from `n` to the end. -/
theorem dayWindow_utc_before_start (dayStart : DayStart) (n : Int)
    (hbefore : n % dayMs < ((dayStart.hour : Int) * 60 + dayStart.minute) * 60000) :
    (dayWindow 0 0 dayStart n).windowStart
        = (n / dayMs - 1) * dayMs + ((dayStart.hour : Int) * 60 + dayStart.minute) * 60000
      ∧ (dayWindow 0 0 dayStart n).windowEnd
        = n / dayMs * dayMs + ((dayStart.hour : Int) * 60 + dayStart.minute) * 60000
      ∧ minutesLeft (dayWindow 0 0 dayStart n).msLeft
        = ((dayWindow 0 0 dayStart n).windowEnd - n) / 60000 := by
  have hc : setHours 0 (parseDate 0 (toLocaleString 0 n)) dayStart.hour dayStart.minute
      = n / dayMs * dayMs + ((dayStart.hour : Int) * 60 + dayStart.minute) * 60000 := by
    simp only [setHours, parseDate, toLocaleString, dayMs]
    omega
  simp only [dayWindow, hc, minutesLeft]
  simp only [dayMs] at hbefore ⊢
  have hlt : n < n / (24 * 60 * 60 * 1000) * (24 * 60 * 60 * 1000)
      + ((dayStart.hour : Int) * 60 + dayStart.minute) * 60000 := by omega
  rw [if_pos hlt]
  refine ⟨by omega, by omega, ?_⟩
  rw [max_eq_right (by omega), max_eq_right (by omega)]

/-- C11, at the failing input: runtime in Asia/Kolkata (+330 minutes),
`timeZone` UTC, day start 05:00, now = 2026-01-01T04:00:00Z. The window computed
is 2025-12-31T23:30Z to 2026-01-01T23:30Z (05:00 on the clock of the runtime),
with 1170 minutes left, where the claim has 2025-12-31T05:00Z to
2026-01-01T05:00Z and 60 minutes. -/
theorem dayWindow_utc_wrong_in_other_runtime :
    dayWindow 330 0 { hour := 5, minute := 0 } 1767240000000
        = { windowStart := 1767223800000, windowEnd := 1767310200000,
            msLeft := 70200000 }
      ∧ minutesLeft (dayWindow 330 0 { hour := 5, minute := 0 } 1767240000000).msLeft
        = 1170
      ∧ (dayWindow 330 0 { hour := 5, minute := 0 } 1767240000000).windowEnd
        ≠ 1767240000000 / dayMs * dayMs + (5 * 60 + 0) * 60000 := by
  decide

/-- C12: `reminderState` is a function of `minutesLeft` alone, through
`hoursLeft = minutesLeft / 60`, with exactly three values: "green" exactly
when `hoursLeft > 6`, "yellow" exactly when `2 < hoursLeft ≤ 6`, "red" exactly
when `hoursLeft ≤ 2`; in whole minutes the three cases are `minutesLeft > 360`,
`120 < minutesLeft ≤ 360` and `minutesLeft ≤ 120`. -/
theorem reminderState_classification (m : Int) :
    (reminderState (hoursLeft m) = "green" ↔ hoursLeft m > 6)
      ∧ (reminderState (hoursLeft m) = "yellow" ↔ 2 < hoursLeft m ∧ hoursLeft m ≤ 6)
      ∧ (reminderState (hoursLeft m) = "red" ↔ hoursLeft m ≤ 2)
      ∧ (hoursLeft m > 6 ↔ m > 360)
      ∧ (2 < hoursLeft m ∧ hoursLeft m ≤ 6 ↔ 120 < m ∧ m ≤ 360)
      ∧ (hoursLeft m ≤ 2 ↔ m ≤ 120)
      ∧ (reminderState (hoursLeft m) = "green" ∨ reminderState (hoursLeft m) = "yellow"
          ∨ reminderState (hoursLeft m) = "red") := by
  have hgy : ("green" : String) ≠ "yellow" := by decide
  have hgr : ("green" : String) ≠ "red" := by decide
  have hyr : ("yellow" : String) ≠ "red" := by decide
  have h6 : hoursLeft m > 6 ↔ m > 360 := by
    unfold hoursLeft
    rw [gt_iff_lt, lt_div_iff₀ (by norm_num)]
    constructor
    · intro h
      have : ((360 : Int) : ℚ) < (m : ℚ) := by push_cast; linarith
      exact_mod_cast this
    · intro h
      have : ((360 : Int) : ℚ) < (m : ℚ) := by exact_mod_cast h
      push_cast at this
      linarith
  have h2 : 2 < hoursLeft m ↔ 120 < m := by
    unfold hoursLeft
    rw [lt_div_iff₀ (by norm_num)]
    constructor
    · intro h
      have : ((120 : Int) : ℚ) < (m : ℚ) := by push_cast; linarith
      exact_mod_cast this
    · intro h
      have : ((120 : Int) : ℚ) < (m : ℚ) := by exact_mod_cast h
      push_cast at this
      linarith
  have h6le : hoursLeft m ≤ 6 ↔ m ≤ 360 := by
    rw [← not_lt, ← not_lt]
    exact not_congr h6
  have h2le : hoursLeft m ≤ 2 ↔ m ≤ 120 := by
    rw [← not_lt, ← not_lt]
    exact not_congr h2
  refine ⟨?_, ?_, ?_, h6, ?_, h2le, ?_⟩
  · unfold reminderState
    by_cases a : hoursLeft m > 6
    · simp [a]
    · by_cases b : hoursLeft m > 2
      · simp [a, b, hgy.symm]
      · simp [a, b, hgr.symm]
  · unfold reminderState
    by_cases a : hoursLeft m > 6
    · have a2 : ¬ hoursLeft m ≤ 6 := not_le.mpr a
      simp [a, a2, hgy]
    · by_cases b : hoursLeft m > 2
      · have a2 : hoursLeft m ≤ 6 := not_lt.mp a
        have b2 : 2 < hoursLeft m := b
        simp [a, b, a2, b2]
      · have b2 : ¬ 2 < hoursLeft m := b
        simp [a, b, b2, hyr.symm]
  · unfold reminderState
    by_cases a : hoursLeft m > 6
    · have a2 : ¬ hoursLeft m ≤ 2 := by
        intro h
        have : hoursLeft m > 6 := a
        linarith
      simp [a, a2, hgr]
    · by_cases b : hoursLeft m > 2
      · have b2 : ¬ hoursLeft m ≤ 2 := not_le.mpr b
        simp [a, b, b2, hyr]
      · have b2 : hoursLeft m ≤ 2 := not_lt.mp b
        simp [a, b, b2]
  · rw [h2, h6le]
  · unfold reminderState
    by_cases a : hoursLeft m > 6
    · simp [a]
    · by_cases b : hoursLeft m > 2
      · simp [a, b]
      · simp [a, b]

/-- C17: for an integer `workloadMin ≥ 0` and instants `now ≤ windowEnd`,
`canFinish`, computed from `msLeft = max(0, windowEnd - now)` and
`minutesLeft = max(0, floor(msLeft / 60000))`, is true exactly when
`latestStart = windowEnd - workloadMin * 60000` is not earlier than `now`. -/
theorem canFinish_iff_latestStart (workload windowEnd now : Int)
    (_hw : 0 ≤ workload) (hnow : now ≤ windowEnd) :
    canFinish workload (minutesLeft (max 0 (windowEnd - now))) = true
      ↔ now ≤ latestStart windowEnd workload := by
  have h1 : max 0 (windowEnd - now) = windowEnd - now := max_eq_right (by omega)
  have h2 : max 0 ((windowEnd - now) / 60000) = (windowEnd - now) / 60000 :=
    max_eq_right (by omega)
  simp only [canFinish, minutesLeft, latestStart, h1, h2, decide_eq_true_eq]
  omega

/-- Witness of C17: 30 minutes of workload, 45 minutes and 30 seconds before
the end of the window. -/
theorem canFinish_iff_latestStart_witness :
    canFinish 30 (minutesLeft (max 0 (1767310200000 - 1767307470000))) = true
      ↔ 1767307470000 ≤ latestStart 1767310200000 30 :=
  canFinish_iff_latestStart 30 1767310200000 1767307470000 (by decide) (by decide)

/-! ## Theorems: redundant start, timer interval -/

/-- C13, counterexample: the timer is started from Idle at 1767279600400, the
interval fires 9.7 s later and stores 10 whole seconds, and `startTimer` is
called again at 1767279610900: `timerStartAt` moves from 1767279600400 to
1767279600900. -/
theorem startTimer_running_moves_startAt :
    (timerInterval (startTimer initialState 1767279600400) 1767279610100).timerRunning
        = true
      ∧ (timerInterval (startTimer initialState 1767279600400) 1767279610100).timerStartAt
        = some 1767279600400
      ∧ (startTimer (timerInterval (startTimer initialState 1767279600400) 1767279610100)
          1767279610900).timerStartAt = some 1767279600900 := by
  decide

/-- C13, amended: for every Running timer state (`timerRunning = true`,
`timerStartAt` set) and every instant `now`, `startTimer` leaves
`timerRunning` and `timerElapsed` unchanged and sets
`timerStartAt = now - 1000 * max(0, timerElapsed)`; `timerStartAt` is
unchanged exactly when it had that value already. Nothing else is written. -/
theorem startTimer_running (s : State) (now t0 : Int)
    (hrun : s.timerRunning = true) (hset : s.timerStartAt = some t0) :
    (startTimer s now).timerRunning = s.timerRunning
      ∧ (startTimer s now).timerElapsed = s.timerElapsed
      ∧ (startTimer s now).timerStartAt = some (now - 1000 * max 0 s.timerElapsed)
      ∧ ((startTimer s now).timerStartAt = s.timerStartAt
          ↔ t0 = now - 1000 * max 0 s.timerElapsed)
      ∧ startTimer s now
          = { s with timerStartAt := some (now - 1000 * max 0 s.timerElapsed) } := by
  have h3 : (startTimer s now).timerStartAt = some (now - 1000 * max 0 s.timerElapsed) := by
    simp only [startTimer]
    rw [mul_comm]
  refine ⟨?_, rfl, h3, ?_, ?_⟩
  · rw [hrun]
    rfl
  · rw [h3, hset]
    constructor
    · intro h
      exact (Option.some.inj h).symm
    · intro h
      rw [h]
  · simp only [startTimer]
    rw [mul_comm, ← hrun]

/-- Witness of C13: a second `startTimer` at the very instant of the first,
with no time accumulated, leaves `timerStartAt` where it was. -/
theorem startTimer_running_witness :
    (startTimer (startTimer initialState 1767279600400) 1767279600400).timerStartAt
      = (startTimer initialState 1767279600400).timerStartAt :=
  ((startTimer_running (startTimer initialState 1767279600400) 1767279600400
    1767279600400 rfl rfl).2.2.2.1).mpr (by decide)

/-- C14, counterexample: on the timer started from Idle at 1767279600400 the
interval firing 5 s later writes `timerElapsed = 5`. -/
theorem timerInterval_writes_elapsed :
    (startTimer initialState 1767279600400).timerElapsed = 0
      ∧ (timerInterval (startTimer initialState 1767279600400)
          1767279605400).timerElapsed = 5 := by
  decide

/-- C14, amended: the interval never writes `timerRunning` or `timerStartAt`;
when the timer is not running, or `timerStartAt` is unset or zero (Idle and
Paused), it leaves `timerElapsed`, and the whole state, unchanged; when the
timer is running with `timerStartAt` set to a nonzero timestamp it stores
`timerElapsed = floor(now / 1000) - floor(timerStartAt / 1000)`, computed from
the timestamp and not by incrementing. `startTimer` and the handlers of tasks,
manual entries, categories and history records do not write `timerElapsed`. -/
theorem timerInterval_effect (s : State) (now : Int) :
    (timerInterval s now).timerRunning = s.timerRunning
      ∧ (timerInterval s now).timerStartAt = s.timerStartAt
      ∧ ((s.timerRunning = false ∨ truthyTs s.timerStartAt = false) →
          timerInterval s now = s)
      ∧ (∀ t, s.timerRunning = true → s.timerStartAt = some t → t ≠ 0 →
          timerInterval s now = { s with timerElapsed := now / 1000 - t / 1000 })
      ∧ (startTimer s now).timerElapsed = s.timerElapsed
      ∧ (∀ newId, (addTask s newId).timerElapsed = s.timerElapsed)
      ∧ (∀ id, (toggleTask s id).timerElapsed = s.timerElapsed)
      ∧ (∀ id, (deleteTask s id).timerElapsed = s.timerElapsed)
      ∧ (∀ cid minutes newId,
          (addManualDone s cid minutes newId).timerElapsed = s.timerElapsed)
      ∧ (∀ id, (deleteManualEntry s id).timerElapsed = s.timerElapsed)
      ∧ (∀ id, (removeCategory s id).timerElapsed = s.timerElapsed)
      ∧ (∀ id newName, (renameCategory s id newName).timerElapsed = s.timerElapsed)
      ∧ (∀ id hrs, (setCategoryTarget s id hrs).timerElapsed = s.timerElapsed)
      ∧ (∀ recId reply newId,
          (saveRecordToCategory s recId reply newId).timerElapsed = s.timerElapsed) := by
  have hmanual : ∀ (s0 : State) cid minutes newId,
      (addManualDone s0 cid minutes newId).timerElapsed = s0.timerElapsed := by
    intro s0 cid minutes newId
    unfold addManualDone
    split
    · rfl
    · split <;> rfl
  refine ⟨?_, ?_, ?_, ?_, rfl, ?_, fun _ => rfl, fun _ => rfl, hmanual s,
    fun _ => rfl, fun _ => rfl, fun _ _ => rfl, fun _ _ => rfl, ?_⟩
  · unfold timerInterval
    split
    · rfl
    · split <;> rfl
  · unfold timerInterval
    split
    · rfl
    · split <;> rfl
  · intro h
    unfold timerInterval
    split
    · rfl
    · next startAt hs =>
      rcases h with h | h
      · simp [h]
      · rw [hs] at h
        simp [h]
  · intro t hrun hs ht
    unfold timerInterval
    simp [hs, hrun, truthyTs, ht]
  · intro newId
    unfold addTask
    split
    · rfl
    · split <;> rfl
  · intro recId reply newId
    unfold saveRecordToCategory
    split
    · rfl
    · split
      · rfl
      · split
        · rfl
        · split
          · rfl
          · split
            · rfl
            · split
              · rfl
              · exact hmanual s _ _ _

/-- Witness of C14: on the paused timer with 7 seconds the interval changes
nothing. -/
theorem timerInterval_effect_witness :
    timerInterval { initialState with timerElapsed := 7 } 1767279605400
      = { initialState with timerElapsed := 7 } :=
  (timerInterval_effect { initialState with timerElapsed := 7 } 1767279605400).2.2.1
    (Or.inl rfl)

/-! ## Theorems: input validation -/

/-- C15, counterexample: with the title "Read", the category "work" and the
minutes field at 0, `addTask` stores a task of 1 minute; `addManualDone` with
-5 minutes stores a manual entry of 1 minute. -/
theorem zero_and_negative_minutes_accepted :
    (addTask
        { initialState with
          newTask := { title := "Read", minutes := some 0, category := "work" } }
        "t1").tasks
        = [{ id := "t1", title := "Read", minutes := 1, category := "work",
             completed := false }]
      ∧ (addTask
        { initialState with
          newTask := { title := "Read", minutes := some (-20), category := "work" } }
        "t1").tasks
        = [{ id := "t1", title := "Read", minutes := 1, category := "work",
             completed := false }]
      ∧ (addManualDone initialState (some "work") (-5) "m1").manualEntries
        = [{ id := "m1", categoryId := "work", minutes := 1 }] := by
  decide

/-- C15, amended: `addTask` returns the state unchanged whenever the title is
empty or white space only, the minutes field holds no number, or the category
is missing; `addManualDone` returns the state unchanged whenever the minutes
are zero or the category is missing. Zero or negative minutes in `addTask`
(title and category given) and negative minutes in `addManualDone` (category
given) are stored as 1 minute. -/
theorem invalid_input_rejected (s : State) (newId : String) (cid : Option String)
    (minutes : Int) :
    ((trim s.newTask.title = "" ∨ s.newTask.minutes = none ∨ s.newTask.category = "") →
        addTask s newId = s)
      ∧ ((minutes = 0 ∨ truthyStr cid = false) → addManualDone s cid minutes newId = s)
      ∧ (∀ m, trim s.newTask.title ≠ "" → s.newTask.category ≠ "" →
          s.newTask.minutes = some m → m ≤ 0 →
          (addTask s newId).tasks = s.tasks ++
            [{ id := newId, title := trim s.newTask.title, minutes := 1,
               category := s.newTask.category, completed := false }])
      ∧ (∀ c, cid = some c → c ≠ "" → minutes < 0 →
          (addManualDone s cid minutes newId).manualEntries = s.manualEntries ++
            [{ id := newId, categoryId := c, minutes := 1 }]) := by
  refine ⟨?_, ?_, ?_, ?_⟩
  · intro h
    unfold addTask
    split
    · rfl
    · next m hm =>
      rcases h with h | h | h
      · simp [h]
      · rw [hm] at h
        cases h
      · simp [h]
  · intro h
    unfold addManualDone
    split
    · rfl
    · next c =>
      rcases h with h | h
      · simp [h]
      · simp [h]
  · intro m ht hc hm hle
    have hmax : max 1 m = 1 := max_eq_left (by omega)
    simp [addTask, hm, ht, hc, hmax]
  · intro c hcid hc hneg
    have hmax : max 1 minutes = 1 := max_eq_left (by omega)
    have hne : ¬ minutes = 0 := by omega
    subst hcid
    simp [addManualDone, truthyStr, hc, hne, hmax]

/-- Witness of C15: a title of blanks only adds no task. -/
theorem invalid_input_rejected_witness :
    addTask (setNewTaskTitle initialState "   ") "t1" = setNewTaskTitle initialState "   " :=
  (invalid_input_rejected (setNewTaskTitle initialState "   ") "t1" none 0).1
    (Or.inl (by decide))

/-! ## Theorems: category ids -/

/-- The character of a decimal digit carries its value. -/
theorem digitChar_value (k : Nat) (hk : k < 10) : (Nat.digitChar k).toNat - 48 = k := by
  interval_cases k <;> rfl

/-- The digits already produced are a plain suffix of the result. -/
theorem toDigitsCore_append (fuel : Nat) :
    ∀ (n : Nat) (ds : List Char),
      Nat.toDigitsCore 10 fuel n ds = Nat.toDigitsCore 10 fuel n [] ++ ds := by
  induction fuel with
  | zero => intro n ds; rfl
  | succ fuel ih =>
    intro n ds
    simp only [Nat.toDigitsCore]
    split
    · rfl
    · rw [ih (n / 10) (Nat.digitChar (n % 10) :: ds), ih (n / 10) [Nat.digitChar (n % 10)]]
      simp

/-- Reading back the decimal digits of a number gives the number. -/
theorem decodeDigits_toDigitsCore (fuel : Nat) :
    ∀ (n : Nat), n < fuel → decodeDigits (Nat.toDigitsCore 10 fuel n []) = n := by
  induction fuel with
  | zero => intro n h; omega
  | succ fuel ih =>
    intro n h
    simp only [Nat.toDigitsCore]
    split
    · next h0 =>
      simp only [decodeDigits, List.foldl_cons, List.foldl_nil, Nat.zero_mul, Nat.zero_add]
      rw [digitChar_value _ (Nat.mod_lt _ (by decide))]
      omega
    · next h0 =>
      rw [toDigitsCore_append fuel (n / 10) [Nat.digitChar (n % 10)]]
      have hih := ih (n / 10) (by omega)
      simp only [decodeDigits] at hih ⊢
      rw [List.foldl_append, hih]
      simp only [List.foldl_cons, List.foldl_nil]
      rw [digitChar_value _ (Nat.mod_lt _ (by decide))]
      omega

/-- Reading back the printed form of a number gives the number. -/
theorem decodeDigits_toString (n : Nat) : decodeDigits (toString n).data = n := by
  show decodeDigits (Nat.toDigitsCore 10 (n + 1) n []) = n
  exact decodeDigits_toDigitsCore (n + 1) n (by omega)

/-- Two numbers printed alike are equal. -/
theorem toString_nat_injective {a b : Nat} (h : (toString a : String) = toString b) : a = b := by
  have := congrArg (fun t : String => decodeDigits t.data) h
  simpa [decodeDigits_toString] using this

/-- The candidates `base-i` are pairwise distinct. -/
theorem suffixed_injective (base : String) {i j : Nat}
    (h : base ++ "-" ++ toString i = base ++ "-" ++ toString j) : i = j := by
  have hd := congrArg String.data h
  simp only [String.data_append, List.append_assoc] at hd
  have h2 := List.append_cancel_left (List.append_cancel_left hd)
  exact toString_nat_injective (String.ext h2)

/-- The first candidate differs from every candidate `base-j`. -/
theorem id0_ne_suffixed (base : String) (now : Int) (j : Nat) :
    (if base ≠ "" then base else "cat-" ++ toString now) ≠ base ++ "-" ++ toString j := by
  by_cases hb : base = ""
  · subst hb
    intro h
    have hd := congrArg String.data h
    simp [String.data_append] at hd
  · simp only [ne_eq, hb, not_false_eq_true, if_true]
    intro h
    have hd := congrArg (fun t : String => t.data.length) h
    simp [String.data_append] at hd

/-- The test `categories.find((c) => c.id === id)` is membership among the ids. -/
theorem find_isSome_iff (categories : List Category) (id : String) :
    (categories.find? (fun c => c.id == id)).isSome = true
      ↔ id ∈ categories.map (fun c => c.id) := by
  simp only [List.find?_isSome, List.mem_map, beq_iff_eq]

/-- The loop of `addCategory` returns before its fuel is used up, with an id
that no category has: every test that fails uses up one more of the existing
ids (`tried`), and the candidates are pairwise distinct. -/
theorem freshIdLoop_returns (categories : List Category) (base : String) :
    ∀ (fuel : Nat) (tried : Finset String) (id : String) (i : Nat),
      tried ⊆ (categories.map (fun c => c.id)).toFinset →
      id ∉ tried →
      (∀ j, i ≤ j → base ++ "-" ++ toString j ∉ tried) →
      (∀ j, i ≤ j → base ++ "-" ++ toString j ≠ id) →
      categories.length < fuel + tried.card →
      ∃ r, freshIdLoop categories base fuel id i = some r
        ∧ r ∉ categories.map (fun c => c.id)
        ∧ (r = id ∨ ∃ j, i ≤ j ∧ r = base ++ "-" ++ toString j) := by
  intro fuel
  induction fuel with
  | zero =>
    intro tried id i hsub _ _ _ hlen
    have h1 : tried.card ≤ (categories.map (fun c => c.id)).toFinset.card :=
      Finset.card_le_card hsub
    have h2 : (categories.map (fun c => c.id)).toFinset.card
        ≤ (categories.map (fun c => c.id)).length := List.toFinset_card_le _
    rw [List.length_map] at h2
    omega
  | succ fuel ih =>
    intro tried id i hsub hid hfut hne hlen
    by_cases hmem : (categories.find? (fun c => c.id == id)).isSome = true
    · have hin : id ∈ categories.map (fun c => c.id) := (find_isSome_iff categories id).mp hmem
      have hcard : (insert id tried).card = tried.card + 1 :=
        Finset.card_insert_of_not_mem hid
      obtain ⟨r, hr, hfree, hform⟩ := ih (insert id tried) (base ++ "-" ++ toString i) (i + 1)
        (by
          intro x hx
          rcases Finset.mem_insert.mp hx with e | e
          · rw [e]
            exact List.mem_toFinset.mpr hin
          · exact hsub e)
        (by
          intro hx
          rcases Finset.mem_insert.mp hx with e | e
          · exact hne i (le_refl i) e
          · exact hfut i (le_refl i) e)
        (by
          intro j hj hx
          rcases Finset.mem_insert.mp hx with e | e
          · exact hne j (by omega) e
          · exact hfut j (by omega) e)
        (by
          intro j hj e
          have := suffixed_injective base e
          omega)
        (by omega)
      refine ⟨r, ?_, hfree, ?_⟩
      · simp only [freshIdLoop, hmem, if_true]
        exact hr
      · right
        rcases hform with e | ⟨j, hj, e⟩
        · exact ⟨i, le_refl i, e⟩
        · exact ⟨j, by omega, e⟩
    · refine ⟨id, ?_, ?_, Or.inl rfl⟩
      · simp only [freshIdLoop, hmem]
        rfl
      · intro hin
        exact hmem ((find_isSome_iff categories id).mpr hin)

/-- The handler `renameCategory` changes no id. -/
theorem renameCategory_ids (s : State) (id newName : String) :
    (renameCategory s id newName).categories.map (fun c => c.id)
      = s.categories.map (fun c => c.id) := by
  simp only [renameCategory, List.map_map]
  apply List.map_congr_left
  intro c _
  simp only [Function.comp]
  split <;> rfl

/-- The handler `setCategoryTarget` changes no id. -/
theorem setCategoryTarget_ids (s : State) (id : String) (hrs : ℚ) :
    (setCategoryTarget s id hrs).categories.map (fun c => c.id)
      = s.categories.map (fun c => c.id) := by
  simp only [setCategoryTarget, List.map_map]
  apply List.map_congr_left
  intro c _
  simp only [Function.comp]
  split <;> rfl

/-- C16: for every name, every category list and every `toLowerCase`,
`addCategory` returns (the loop ends within one test more than there are
categories) and appends one category whose id differs from every existing id;
the id is the slug of the name when that is free (`cat-now` for an empty
slug), otherwise the slug with a numeric suffix `-j`, `j ≥ 1`; so ids that are
pairwise distinct before are pairwise distinct after. `renameCategory` and
`setCategoryTarget` change no category id. -/
theorem addCategory_fresh_id (toLowerCase : String → String) (s : State)
    (name : Option String) (now : Int) :
    ∃ id,
      addCategory toLowerCase s name now
          = some { s with categories := s.categories ++
              [{ id := id, name := categoryName name, targetHrs := 1 }] }
        ∧ id ∉ s.categories.map (fun c => c.id)
        ∧ (id = (if slugBase toLowerCase (categoryName name) ≠ "" then
                  slugBase toLowerCase (categoryName name)
                else "cat-" ++ toString now)
            ∨ ∃ j, 1 ≤ j
                ∧ id = slugBase toLowerCase (categoryName name) ++ "-" ++ toString j)
        ∧ ((if slugBase toLowerCase (categoryName name) ≠ "" then
                slugBase toLowerCase (categoryName name)
              else "cat-" ++ toString now) ∉ s.categories.map (fun c => c.id) →
            id = (if slugBase toLowerCase (categoryName name) ≠ "" then
                    slugBase toLowerCase (categoryName name)
                  else "cat-" ++ toString now))
        ∧ ((s.categories.map (fun c => c.id)).Nodup →
            ((s.categories ++
                [({ id := id, name := categoryName name, targetHrs := 1 } : Category)]).map
              (fun c => c.id)).Nodup)
        ∧ (∀ cid newName, (renameCategory s cid newName).categories.map (fun c => c.id)
            = s.categories.map (fun c => c.id))
        ∧ (∀ cid hrs, (setCategoryTarget s cid hrs).categories.map (fun c => c.id)
            = s.categories.map (fun c => c.id)) := by
  obtain ⟨r, hr, hfree, hform⟩ := freshIdLoop_returns s.categories
    (slugBase toLowerCase (categoryName name)) (s.categories.length + 1) ∅
    (if slugBase toLowerCase (categoryName name) ≠ "" then
      slugBase toLowerCase (categoryName name) else "cat-" ++ toString now) 1
    (Finset.empty_subset _) (Finset.not_mem_empty _)
    (fun _ _ => Finset.not_mem_empty _)
    (fun j _ e => id0_ne_suffixed _ now j e.symm)
    (by simp)
  refine ⟨r, ?_, hfree, hform, ?_, ?_, renameCategory_ids s, setCategoryTarget_ids s⟩
  · simp only [addCategory, hr]
  · intro hnot
    have hfind : ¬ (s.categories.find? (fun c => c.id ==
        (if slugBase toLowerCase (categoryName name) ≠ "" then
          slugBase toLowerCase (categoryName name)
        else "cat-" ++ toString now))).isSome = true :=
      fun h => hnot ((find_isSome_iff s.categories _).mp h)
    simp only [freshIdLoop, hfind] at hr
    exact (Option.some.inj hr).symm
  · intro hnd
    rw [List.map_append, List.nodup_append]
    refine ⟨hnd, by simp, ?_⟩
    intro x hx hx2
    simp only [List.map_cons, List.map_nil, List.mem_singleton] at hx2
    exact hfree (hx2 ▸ hx)

/-- Witness of C16: adding "Work" to the two default categories gives the id
"work-1". -/
theorem addCategory_fresh_id_witness :
    (∃ id, addCategory (fun t => String.mk (t.data.map Char.toLower)) initialState
          (some "Work") 1767279600400
          = some { initialState with categories := initialState.categories ++
              [{ id := id, name := categoryName (some "Work"), targetHrs := 1 }] }
        ∧ id ∉ initialState.categories.map (fun c => c.id))
      ∧ (addCategory (fun t => String.mk (t.data.map Char.toLower)) initialState
          (some "Work") 1767279600400).map (fun t => t.categories.map (fun c => c.id))
        = some ["work", "study", "work-1"] := by
  obtain ⟨id, h1, h2, _⟩ := addCategory_fresh_id
    (fun t => String.mk (t.data.map Char.toLower)) initialState (some "Work") 1767279600400
  exact ⟨⟨id, h1, h2⟩, by decide⟩

/-! ## Theorems: reachable states -/

/-- A state that agrees with a well-formed one on the timer, the categories
and the history is well formed. -/
theorem wellFormed_of_eq {s t : State} (h : WellFormed s)
    (h1 : t.timerStartAt = s.timerStartAt) (h2 : t.timerRunning = s.timerRunning)
    (h3 : t.categories = s.categories) (h4 : t.timerHistory = s.timerHistory) :
    WellFormed t := by
  unfold WellFormed
  rw [h1, h2, h3, h4]
  exact h

/-- The handler `addManualDone` writes the manual entries only. -/
theorem addManualDone_frame (s : State) (cid : Option String) (minutes : Int)
    (newId : String) :
    (addManualDone s cid minutes newId).timerStartAt = s.timerStartAt
      ∧ (addManualDone s cid minutes newId).timerRunning = s.timerRunning
      ∧ (addManualDone s cid minutes newId).categories = s.categories
      ∧ (addManualDone s cid minutes newId).timerHistory = s.timerHistory := by
  unfold addManualDone
  split
  · exact ⟨rfl, rfl, rfl, rfl⟩
  · split <;> exact ⟨rfl, rfl, rfl, rfl⟩

/-- The click handler of "Add Done Time" leaves the timer, the categories and
the history as they are. -/
theorem addDoneTime_frame (s : State) (newId : String) :
    (addDoneTime s newId).timerStartAt = s.timerStartAt
      ∧ (addDoneTime s newId).timerRunning = s.timerRunning
      ∧ (addDoneTime s newId).categories = s.categories
      ∧ (addDoneTime s newId).timerHistory = s.timerHistory := by
  unfold addDoneTime
  simp only
  generalize (if s.quickDone.category ≠ "" then some s.quickDone.category
    else s.categories.head?.map (fun c => c.id)) = cat
  split
  · exact ⟨rfl, rfl, rfl, rfl⟩
  · exact addManualDone_frame s cat _ newId

/-- The handler `saveRecordToCategory` leaves the timer and the categories as
they are; the history is unchanged or marked with the id of a category of the
list. -/
theorem saveRecord_frame (s : State) (recId : String) (reply : Option Int)
    (newId : String) :
    (saveRecordToCategory s recId reply newId).timerStartAt = s.timerStartAt
      ∧ (saveRecordToCategory s recId reply newId).timerRunning = s.timerRunning
      ∧ (saveRecordToCategory s recId reply newId).categories = s.categories
      ∧ ((saveRecordToCategory s recId reply newId).timerHistory = s.timerHistory
          ∨ ∃ c ∈ s.categories,
              (saveRecordToCategory s recId reply newId).timerHistory
                = s.timerHistory.map (fun r =>
                    if r.id = recId then { r with savedCategoryId := some c.id } else r)) := by
  unfold saveRecordToCategory
  split
  · exact ⟨rfl, rfl, rfl, Or.inl rfl⟩
  · split
    · exact ⟨rfl, rfl, rfl, Or.inl rfl⟩
    · split
      · exact ⟨rfl, rfl, rfl, Or.inl rfl⟩
      · split
        · exact ⟨rfl, rfl, rfl, Or.inl rfl⟩
        · split
          · exact ⟨rfl, rfl, rfl, Or.inl rfl⟩
          · split
            · exact ⟨rfl, rfl, rfl, Or.inl rfl⟩
            · next chosen hch =>
              have hf := addManualDone_frame s (some chosen.id)
                (max 1 (mathRound ((‹HistoryRecord›.durationSec : ℚ) / 60))) newId
              refine ⟨hf.1, hf.2.1, hf.2.2.1, Or.inr ⟨chosen, List.get?_mem hch, ?_⟩⟩
              simp only [hf.2.2.2]

/-- Every reachable state is well formed. -/
theorem reachable_wellFormed (toLowerCase : String → String) (s : State)
    (h : Reachable toLowerCase s) : WellFormed s := by
  induction h with
  | init =>
    refine ⟨fun h => absurd rfl h, ?_, ?_⟩
    · intro c hc
      simp only [initialState, defaultCats, List.mem_cons, List.mem_singleton,
        List.not_mem_nil, or_false] at hc
      rcases hc with e | e <;> (rw [e]; decide)
    · intro r hr
      cases hr
  | titleTyped title _ ih => exact wellFormed_of_eq ih rfl rfl rfl rfl
  | minutesTyped v _ ih => exact wellFormed_of_eq ih rfl rfl rfl rfl
  | taskCategoryChosen c _ _ ih => exact wellFormed_of_eq ih rfl rfl rfl rfl
  | taskAdded newId _ ih =>
    unfold addTask
    split
    · exact ih
    · split
      · exact ih
      · exact wellFormed_of_eq ih rfl rfl rfl rfl
  | taskToggled id _ ih => exact wellFormed_of_eq ih rfl rfl rfl rfl
  | taskDeleted id _ ih => exact wellFormed_of_eq ih rfl rfl rfl rfl
  | doneCategoryChosen c _ _ ih => exact wellFormed_of_eq ih rfl rfl rfl rfl
  | doneHoursTyped v _ ih => exact wellFormed_of_eq ih rfl rfl rfl rfl
  | doneMinutesTyped v _ ih => exact wellFormed_of_eq ih rfl rfl rfl rfl
  | @doneTimeAdded s0 newId _ ih =>
    have hf := addDoneTime_frame s0 newId
    exact wellFormed_of_eq ih hf.1 hf.2.1 hf.2.2.1 hf.2.2.2
  | manualEntryDeleted id _ ih => exact wellFormed_of_eq ih rfl rfl rfl rfl
  | @categoryAdded s0 t name now _ hadd ih =>
    obtain ⟨r, hr, _, hform⟩ := freshIdLoop_returns s0.categories
      (slugBase toLowerCase (categoryName name)) (s0.categories.length + 1) ∅
      (if slugBase toLowerCase (categoryName name) ≠ "" then
        slugBase toLowerCase (categoryName name) else "cat-" ++ toString now) 1
      (Finset.empty_subset _) (Finset.not_mem_empty _)
      (fun _ _ => Finset.not_mem_empty _)
      (fun j _ e => id0_ne_suffixed _ now j e.symm)
      (by simp)
    simp only [addCategory, hr, Option.some.injEq] at hadd
    subst hadd
    refine ⟨ih.1, ?_, ih.2.2⟩
    intro c hc
    rcases List.mem_append.mp hc with hc | hc
    · exact ih.2.1 c hc
    · rw [List.mem_singleton] at hc
      rw [hc]
      show r ≠ ""
      rcases hform with e | ⟨j, _, e⟩
      · rw [e]
        by_cases hb : slugBase toLowerCase (categoryName name) = ""
        · simp only [hb, ne_eq, not_true_eq_false, if_false]
          intro h
          have := congrArg String.data h
          simp [String.data_append] at this
        · simp only [ne_eq, hb, not_false_eq_true, if_true]
      · rw [e]
        intro h
        have := congrArg (fun t : String => t.data.length) h
        simp [String.data_append] at this
  | categoryRemoved id _ ih =>
    refine ⟨ih.1, ?_, ih.2.2⟩
    intro c hc
    exact ih.2.1 c (List.mem_of_mem_filter hc)
  | categoryRenamed id newName _ ih =>
    refine ⟨ih.1, ?_, ih.2.2⟩
    intro c hc
    simp only [renameCategory, List.mem_map] at hc
    obtain ⟨c0, hc0, e⟩ := hc
    have := ih.2.1 c0 hc0
    rw [← e]
    split <;> exact this
  | targetSet id hrs _ ih =>
    refine ⟨ih.1, ?_, ih.2.2⟩
    intro c hc
    simp only [setCategoryTarget, List.mem_map] at hc
    obtain ⟨c0, hc0, e⟩ := hc
    have := ih.2.1 c0 hc0
    rw [← e]
    split <;> exact this
  | inputsSynced _ ih => exact wellFormed_of_eq ih rfl rfl rfl rfl
  | started now _ ih =>
    exact ⟨fun _ => rfl, ih.2.1, ih.2.2⟩
  | paused now _ ih =>
    unfold pauseTimer
    split
    · exact ih
    · split
      · exact ih
      · exact ⟨fun h => absurd rfl h, ih.2.1, ih.2.2⟩
  | @stopped s0 now newId _ ih =>
    unfold stopAndRecord
    split
    · exact ih
    · refine ⟨fun h => absurd rfl h, ih.2.1, ?_⟩
      intro r hr
      rcases List.mem_cons.mp (List.mem_of_mem_take hr) with e | hmem
      · rw [e]
        simp [stopRecord]
      · exact ih.2.2 r hmem
  | ticked now _ ih =>
    unfold timerInterval
    split
    · exact ih
    · split
      · exact wellFormed_of_eq ih rfl rfl rfl rfl
      · exact ih
  | @recordSaved s0 recId reply newId _ ih =>
    have hf := saveRecord_frame s0 recId reply newId
    unfold WellFormed
    rw [hf.1, hf.2.1, hf.2.2.1]
    refine ⟨ih.1, ih.2.1, ?_⟩
    rcases hf.2.2.2 with e | ⟨c, hc, e⟩
    · rw [e]
      exact ih.2.2
    · rw [e]
      intro r hr
      simp only [List.mem_map] at hr
      obtain ⟨r0, hr0, e0⟩ := hr
      rw [← e0]
      split
      · intro h
        exact ih.2.1 c hc (Option.some.inj h)
      · exact ih.2.2 r0 hr0
  | recordDeleted id _ ih =>
    refine ⟨ih.1, ih.2.1, ?_⟩
    intro r hr
    exact ih.2.2 r (List.mem_of_mem_filter hr)

/-- C3: in every reachable state that is not Idle with zero elapsed
(`timerRunning` true, or `timerStartAt` set, or `timerElapsed ≠ 0`), and for
every history `h`, `stopAndRecord` gives the Idle state (`timerRunning =
false`, `timerStartAt = null`, `timerElapsed = 0`) and the history
`(r :: h).take 200`, where `r` is the one new record and has
`savedCategoryId = null`: `r` is at the head, followed by the first 199 old
records in their order, and the length is at most 200. -/
theorem stopAndRecord_reachable (toLowerCase : String → String) (s : State) (now : Int)
    (newId : String) (hreach : Reachable toLowerCase s)
    (h : s.timerRunning = true ∨ s.timerStartAt ≠ none ∨ s.timerElapsed ≠ 0) :
    (stopAndRecord s now newId).timerRunning = false
      ∧ (stopAndRecord s now newId).timerStartAt = none
      ∧ (stopAndRecord s now newId).timerElapsed = 0
      ∧ (stopAndRecord s now newId).timerHistory
          = (stopRecord s now newId :: s.timerHistory).take 200
      ∧ (stopRecord s now newId).savedCategoryId = none
      ∧ (stopAndRecord s now newId).timerHistory
          = stopRecord s now newId :: s.timerHistory.take 199
      ∧ (stopAndRecord s now newId).timerHistory.length
          = min 200 (s.timerHistory.length + 1)
      ∧ (stopAndRecord s now newId).timerHistory.length ≤ 200 := by
  have hwf := reachable_wellFormed toLowerCase s hreach
  apply stopAndRecord_records
  rcases h with h | h | h
  · exact Or.inl h
  · exact Or.inl (hwf.1 h)
  · exact Or.inr (Or.inr h)

/-- Witness of C3: the timer started from Idle, paused 5.7 s later with 6
whole seconds, then stopped: one record of 6 seconds. -/
theorem stopAndRecord_reachable_witness :
    (stopAndRecord (pauseTimer (startTimer initialState 1767279600400) 1767279606100)
        1767279610000 "r1").timerHistory
      = [{ id := "r1", start := none, endTs := 1767279610000, durationSec := 6,
           savedCategoryId := none }] := by
  have h := stopAndRecord_reachable (fun t => t)
    (pauseTimer (startTimer initialState 1767279600400) 1767279606100) 1767279610000 "r1"
    (Reachable.paused _ (Reachable.started _ Reachable.init))
    (Or.inr (Or.inr (by decide)))
  rw [h.2.2.2.1]
  decide

/-- C5: in every reachable state, for every record `r` found under `recId`
with no `savedCategoryId` and `durationSec = d`, and every valid choice `k` of
a category `c` of the list, `saveRecordToCategory` appends exactly one manual
entry, with `categoryId = c.id` and `minutes = max(1, floor((d + 30) / 60))`
(which is `max(1, round(d / 60))`), sets `savedCategoryId = c.id` on the
record, and leaves every record with another id, the tasks, the categories
and the timer unchanged. -/
theorem saveRecord_reachable (toLowerCase : String → String) (s : State)
    (recId newId : String) (k : Int) (r : HistoryRecord) (c : Category)
    (hreach : Reachable toLowerCase s)
    (hfind : s.timerHistory.find? (fun x => x.id == recId) = some r)
    (hunsaved : r.savedCategoryId = none)
    (hk : 1 ≤ k) (hc : s.categories.get? (k - 1).toNat = some c) :
    (saveRecordToCategory s recId (some k) newId).manualEntries
        = s.manualEntries ++
          [{ id := newId, categoryId := c.id,
             minutes := max 1 ((r.durationSec + 30) / 60) }]
      ∧ (saveRecordToCategory s recId (some k) newId).timerHistory
        = s.timerHistory.map
          (fun x => if x.id = recId then { x with savedCategoryId := some c.id } else x)
      ∧ { r with savedCategoryId := some c.id }
          ∈ (saveRecordToCategory s recId (some k) newId).timerHistory
      ∧ (∀ x ∈ s.timerHistory, x.id ≠ recId →
          x ∈ (saveRecordToCategory s recId (some k) newId).timerHistory)
      ∧ (saveRecordToCategory s recId (some k) newId).tasks = s.tasks
      ∧ (saveRecordToCategory s recId (some k) newId).categories = s.categories
      ∧ (saveRecordToCategory s recId (some k) newId).timerRunning = s.timerRunning
      ∧ (saveRecordToCategory s recId (some k) newId).timerStartAt = s.timerStartAt
      ∧ (saveRecordToCategory s recId (some k) newId).timerElapsed = s.timerElapsed :=
  saveRecord_appends_entry s recId newId k r c hfind hunsaved hk hc
    ((reachable_wellFormed toLowerCase s hreach).2.1 c (List.get?_mem hc))

/-- Witness of C5: the timer started from Idle and stopped 125 s later; the
record saved into the first category adds a manual entry of 2 minutes. -/
theorem saveRecord_reachable_witness :
    (saveRecordToCategory
        (stopAndRecord (startTimer initialState 1767279600400)
          (1767279600400 + 1000 * 125) "r1")
        "r1" (some 1) "m1").manualEntries
      = [{ id := "m1", categoryId := "work", minutes := 2 }] := by
  have h := saveRecord_reachable (fun t => t)
    (stopAndRecord (startTimer initialState 1767279600400)
      (1767279600400 + 1000 * 125) "r1")
    "r1" "m1" 1
    { id := "r1", start := some 1767279600400, endTs := 1767279725400,
      durationSec := 125, savedCategoryId := none }
    { id := "work", name := "Work", targetHrs := 6 }
    (Reachable.stopped _ _ (Reachable.started _ Reachable.init))
    (by decide) rfl (by decide) rfl
  rw [h.1]
  rfl

/-- C6: in every reachable state `saveRecordToCategory` writes nothing when
the record id is not found in the history, when the record found already has
a `savedCategoryId`, or when no categories exist: the whole state (manual
entries, history, categories and the rest) is unchanged, whatever the reply
to the prompt; so no second manual entry is made for a record already
assigned. -/
theorem saveRecord_rejected_reachable (toLowerCase : String → String) (s : State)
    (recId newId : String) (reply : Option Int)
    (hreach : Reachable toLowerCase s)
    (h : s.timerHistory.find? (fun x => x.id == recId) = none
          ∨ (∃ r, s.timerHistory.find? (fun x => x.id == recId) = some r
                ∧ r.savedCategoryId ≠ none)
          ∨ s.categories = []) :
    saveRecordToCategory s recId reply newId = s := by
  have hwf := reachable_wellFormed toLowerCase s hreach
  apply saveRecord_failure_no_mutation
  rcases h with h | ⟨r, hr, hsaved⟩ | h
  · exact Or.inl h
  · right
    left
    cases hcid : r.savedCategoryId with
    | none => exact absurd hcid hsaved
    | some cid =>
      refine ⟨r, cid, hr, hcid, ?_⟩
      intro e
      exact hwf.2.2 r (List.mem_of_find?_eq_some hr) (by rw [hcid, e])
  · exact Or.inr (Or.inr h)

/-- Witness of C6: the record of the 125 s session, once saved into the first
category, is not saved again: the second call changes nothing. -/
theorem saveRecord_rejected_reachable_witness :
    saveRecordToCategory
        (saveRecordToCategory
          (stopAndRecord (startTimer initialState 1767279600400)
            (1767279600400 + 1000 * 125) "r1")
          "r1" (some 1) "m1")
        "r1" (some 2) "m2"
      = saveRecordToCategory
          (stopAndRecord (startTimer initialState 1767279600400)
            (1767279600400 + 1000 * 125) "r1")
          "r1" (some 1) "m1" := by
  have hs := saveRecord_success_eq
    (stopAndRecord (startTimer initialState 1767279600400)
      (1767279600400 + 1000 * 125) "r1")
    "r1" "m1" 1
    { id := "r1", start := some 1767279600400, endTs := 1767279725400,
      durationSec := 125, savedCategoryId := none }
    { id := "work", name := "Work", targetHrs := 6 }
    (by decide) (by decide) (by decide) rfl (by decide)
  have hfind : (saveRecordToCategory
      (stopAndRecord (startTimer initialState 1767279600400)
        (1767279600400 + 1000 * 125) "r1")
      "r1" (some 1) "m1").timerHistory.find? (fun x => x.id == "r1")
      = some { id := "r1", start := some 1767279600400, endTs := 1767279725400,
               durationSec := 125, savedCategoryId := some "work" } := by
    rw [hs]
    decide
  exact saveRecord_rejected_reachable (fun t => t) _ "r1" "m2" (some 2)
    (Reachable.recordSaved _ _ _ (Reachable.stopped _ _ (Reachable.started _ Reachable.init)))
    (Or.inr (Or.inl ⟨_, hfind, by simp⟩))

end Planner
